import Mathlib

/-!
# Batching per-cpu counters (`lib/percpu_counter.c`)

A shallow embedding of the per-cpu counter of `src/lib/percpu_counter.c` and
proofs of its contract.

Conventions of the embedding.

* Machine integers are mathematical integers together with an explicit
  wrap-around: `wrap_s64` for `s64`/`atomic64_t`, `wrap_s32` for `s32`/`int`/
  `atomic_t`, reduction modulo `2^32` for `unsigned int`.
* A pointer that owns its pointee (`fbc->pcrw`, `fbc->counters`) is an
  `Option` holding the pointee; `none` is `NULL`.  A function that would
  dereference `NULL` returns `none`.
* The per-cpu area `fbc->counters` is a list with one `s32` slot per possible
  cpu; the possible cpus are `0 .. nr_cpu_ids - 1`, the online cpus are those
  whose bit is set in `cpu_online_mask`.
* The build that is modelled has `CONFIG_HOTPLUG_CPU` set (the registry
  `percpu_counters` and the hotplug callback exist) and
  `CONFIG_DEBUG_OBJECTS_PERCPU_COUNTER` unset (the debug hooks are empty).
* A function runs from entry to exit with nothing interleaved.  The retry loop
  of `__percpu_counter_sum` carries a fuel argument that bounds the number of
  passes.
* Interleavings are modelled by steps: `sum_begin`, `sum_pass`, `sum_end` and
  `sum_finish` are the statements of `__percpu_counter_sum` in order,
  `add_route`, `add_slow` and `add_local` those of `__percpu_counter_add`
  (`sum_phases` and `add_phases` show that they compose to the functions).
  The executions of `step` and `run` interleave whole updates, sets, cpu
  removals and additions with the steps of sums.
-/

namespace PercpuCounter

/-! ## Machine integers -/

/-- Smallest value of a signed 64-bit integer. -/
def S64_MIN : Int := -(2 ^ 63)

/-- Largest value of a signed 64-bit integer. -/
def S64_MAX : Int := 2 ^ 63 - 1

/-- Smallest value of a signed 32-bit integer. -/
def INT_MIN : Int := -(2 ^ 31)

/-- Largest value of a signed 32-bit integer. -/
def INT_MAX : Int := 2 ^ 31 - 1

/-- Conversion of an integer to `s64` (two's complement wrap-around). -/
def wrap_s64 (x : Int) : Int := (x + 2 ^ 63) % 2 ^ 64 - 2 ^ 63

/-- Conversion of an integer to `s32` (two's complement wrap-around). -/
def wrap_s32 (x : Int) : Int := (x + 2 ^ 31) % 2 ^ 32 - 2 ^ 31

/-- Conversion of an integer to `unsigned int`. -/
def wrap_u32 (x : Int) : Int := x % 2 ^ 32

/-- The value is representable as an `s64`. -/
def is_s64 (x : Int) : Prop := S64_MIN ≤ x ∧ x ≤ S64_MAX

/-- The value is representable as an `s32`. -/
def is_s32 (x : Int) : Prop := INT_MIN ≤ x ∧ x ≤ INT_MAX

instance (x : Int) : Decidable (is_s64 x) :=
  inferInstanceAs (Decidable (S64_MIN ≤ x ∧ x ≤ S64_MAX))

instance (x : Int) : Decidable (is_s32 x) :=
  inferInstanceAs (Decidable (INT_MIN ≤ x ∧ x ≤ INT_MAX))

/-! ## Data model -/

/-- The shared part of a counter, `struct percpu_counter_rw`: the running
total `count`, the total `slowcount` of the updates made while a sum was in
flight, and the flush `sequence` number.  The list linkage and the back
pointer `fbc` are represented by the registry of the kernel state. -/
structure percpu_counter_rw where
  count : Int
  slowcount : Int
  sequence : Int
  deriving DecidableEq, Repr

/-- The counter, `struct percpu_counter`: the per-cpu area `counters` (one
`s32` per possible cpu), the shared part `pcrw` and the number `sum_cnt` of
sums in flight. -/
structure percpu_counter where
  counters : Option (List Int)
  pcrw : Option percpu_counter_rw
  sum_cnt : Int
  deriving DecidableEq, Repr

/-- The online cpus in increasing order, `for_each_online_cpu`. -/
def online_cpus (nr_cpu_ids : Nat) (cpu_online_mask : Nat → Bool) : List Nat :=
  (List.range nr_cpu_ids).filter cpu_online_mask

/-- The number of online cpus as the `unsigned int` that `num_online_cpus()`
returns. -/
def num_online_cpus (nr_cpu_ids : Nat) (cpu_online_mask : Nat → Bool) : Int :=
  wrap_u32 ((online_cpus nr_cpu_ids cpu_online_mask).length : Int)

/-! ## Operations on one counter -/

/-- The function `percpu_counter_set`: zero the slot of every possible cpu,
then store `amount` in `count` and `0` in `slowcount`. -/
def percpu_counter_set (fbc : percpu_counter) (amount : Int) : Option percpu_counter :=
  match fbc.counters, fbc.pcrw with
  | some cs, some pcrw =>
    some { fbc with
      counters := some (cs.map (fun _ => 0))
      pcrw := some { pcrw with count := amount, slowcount := 0 } }
  | _, _ => none

/-- The function `__percpu_counter_add`, run on the cpu `cpu`.  With a sum in
flight the amount goes to `slowcount`.  Otherwise `count = *pcount + amount`
is computed in `s64`; when it reaches `batch` or `-batch` it is folded into
the shared `count`, `sequence` is incremented and `count - amount` is
subtracted from the slot, else `amount` is added to the slot. -/
def __percpu_counter_add (fbc : percpu_counter) (cpu : Nat) (amount batch : Int) :
    Option percpu_counter :=
  match fbc.pcrw with
  | none => none
  | some pcrw =>
    if fbc.sum_cnt ≠ 0 then
      some { fbc with pcrw := some { pcrw with slowcount := wrap_s64 (pcrw.slowcount + amount) } }
    else
      match fbc.counters with
      | none => none
      | some cs =>
        let pcount := cs.getD cpu 0
        let count := wrap_s64 (pcount + amount)
        if count ≥ batch ∨ count ≤ wrap_s32 (-batch) then
          some { fbc with
            pcrw := some { pcrw with
              count := wrap_s64 (pcrw.count + count)
              sequence := wrap_u32 (pcrw.sequence + 1) }
            counters := some (cs.set cpu (wrap_s32 (pcount - wrap_s64 (count - amount)))) }
        else
          some { fbc with counters := some (cs.set cpu (wrap_s32 (wrap_s64 (pcount + amount)))) }

/-- One walk of the loop body of `__percpu_counter_sum`: start from the shared
`count` and add the slot of every online cpu, in `s64`. -/
def sum_walk (pcrw : percpu_counter_rw) (cs : List Int) (cpus : List Nat) : Int :=
  cpus.foldl (fun ret cpu => wrap_s64 (ret + cs.getD cpu 0)) pcrw.count

/-- The retry loop `do { ... } while (pcrw->sequence != seq)` of
`__percpu_counter_sum`; `fuel` bounds the number of passes and `none` means
that the fuel ran out. -/
def sum_retry (pcrw : percpu_counter_rw) (cs : List Int) (cpus : List Nat) : Nat → Option Int
  | 0 => none
  | fuel + 1 =>
    let seq := pcrw.sequence
    let ret := sum_walk pcrw cs cpus
    if pcrw.sequence ≠ seq then sum_retry pcrw cs cpus fuel else some ret

/-- The function `__percpu_counter_sum`: increment `sum_cnt`, walk the online
cpus until `sequence` is stable, decrement `sum_cnt`, add `slowcount`.  The
result is the returned value and the counter afterwards. -/
def __percpu_counter_sum (nr_cpu_ids : Nat) (cpu_online_mask : Nat → Bool)
    (fbc : percpu_counter) (fuel : Nat) : Option (Int × percpu_counter) :=
  match fbc.pcrw with
  | none => none
  | some pcrw =>
    let fbc1 := { fbc with sum_cnt := wrap_s32 (fbc.sum_cnt + 1) }
    match fbc1.counters with
    | none => none
    | some cs =>
      match sum_retry pcrw cs (online_cpus nr_cpu_ids cpu_online_mask) fuel with
      | none => none
      | some ret =>
        let fbc2 := { fbc1 with sum_cnt := wrap_s32 (fbc1.sum_cnt - 1) }
        some (wrap_s64 (ret + pcrw.slowcount), fbc2)

/-- Modelled from the spec: `percpu_counter_sum` of `linux/percpu_counter.h`,
which is not in the source tree; the exact sum is `__percpu_counter_sum`. -/
def percpu_counter_sum (nr_cpu_ids : Nat) (cpu_online_mask : Nat → Bool)
    (fbc : percpu_counter) (fuel : Nat) : Option (Int × percpu_counter) :=
  __percpu_counter_sum nr_cpu_ids cpu_online_mask fbc fuel

/-- Modelled from the spec: `percpu_counter_read` of `linux/percpu_counter.h`,
which is not in the source tree; the approximate read returns the shared
total alone. -/
def percpu_counter_read (fbc : percpu_counter) : Option Int :=
  match fbc.pcrw with
  | none => none
  | some pcrw => some pcrw.count

/-- Modelled from the spec: the macro `abs` of `linux/kernel.h`, which is not
in the source tree, at a 64-bit operand: the absolute value, computed in
`s64`. -/
def abs (x : Int) : Int := wrap_s64 (if x < 0 then -x else x)

/-- The function `__percpu_counter_compare`.  The rough count decides when
`abs(count - rhs)` exceeds `batch * num_online_cpus()` (a product of
`unsigned int`), else the precise sum is compared. -/
def __percpu_counter_compare (nr_cpu_ids : Nat) (cpu_online_mask : Nat → Bool)
    (fbc : percpu_counter) (rhs batch : Int) (fuel : Nat) : Option (Int × percpu_counter) :=
  match percpu_counter_read fbc with
  | none => none
  | some count =>
    if abs (wrap_s64 (count - rhs)) >
        wrap_u32 (wrap_u32 batch * num_online_cpus nr_cpu_ids cpu_online_mask) then
      if count > rhs then some (1, fbc) else some (-1, fbc)
    else
      match percpu_counter_sum nr_cpu_ids cpu_online_mask fbc fuel with
      | none => none
      | some (count, fbc1) =>
        if count > rhs then some (1, fbc1)
        else if count < rhs then some (-1, fbc1)
        else some (0, fbc1)

/-! ## Kernel state: counters in memory, the registry, the batch, the allocators -/

/-- The state around the counters: the counters in memory by address, the
registry `percpu_counters` (each node stands for the counter it points back
to through `pcrw->fbc`, newest first), the global `percpu_counter_batch`, the
cpu masks, and the number of live objects of the slab and per-cpu
allocators. -/
structure kernel where
  mem : Nat → percpu_counter
  percpu_counters : List Nat
  percpu_counter_batch : Int
  nr_cpu_ids : Nat
  cpu_online_mask : Nat → Bool
  kmalloc_live : Nat
  percpu_live : Nat

/-- Error number `ENOMEM` of `errno.h`. -/
def ENOMEM : Int := 12

/-- Modelled from the spec: `kzalloc` of `linux/slab.h`, which is not in the
source tree, building the shared part: on success one more slab object is
live and its storage is zero-filled. -/
def kzalloc_pcrw (K : kernel) (ok : Bool) : kernel × Option percpu_counter_rw :=
  if ok then
    ({ K with kmalloc_live := K.kmalloc_live + 1 },
      some { count := 0, slowcount := 0, sequence := 0 })
  else (K, none)

/-- Modelled from the spec: `kfree` of `linux/slab.h`, which is not in the
source tree: one slab object fewer is live; `kfree(NULL)` does nothing. -/
def kfree (K : kernel) (p : Option percpu_counter_rw) : kernel :=
  match p with
  | none => K
  | some _ => { K with kmalloc_live := K.kmalloc_live - 1 }

/-- Modelled from the spec: `alloc_percpu_gfp` of `linux/percpu.h`, which is
not in the source tree: on success one more per-cpu area is live, with a
zero-filled slot for every possible cpu. -/
def alloc_percpu_gfp (K : kernel) (ok : Bool) : kernel × Option (List Int) :=
  if ok then
    ({ K with percpu_live := K.percpu_live + 1 }, some (List.replicate K.nr_cpu_ids 0))
  else (K, none)

/-- Modelled from the spec: `free_percpu` of `linux/percpu.h`, which is not in
the source tree: one per-cpu area fewer is live; `free_percpu(NULL)` does
nothing. -/
def free_percpu (K : kernel) (p : Option (List Int)) : kernel :=
  match p with
  | none => K
  | some _ => { K with percpu_live := K.percpu_live - 1 }

/-- Store a counter at an address. -/
def kernel.store (K : kernel) (fbc : Nat) (c : percpu_counter) : kernel :=
  { K with mem := Function.update K.mem fbc c }

/-- The function `__percpu_counter_init` on the counter at address `fbc`;
`kzalloc_ok` and `alloc_percpu_ok` say whether the two allocations succeed.
The result is the state afterwards and the returned code. -/
def __percpu_counter_init (K : kernel) (fbc : Nat) (amount : Int)
    (kzalloc_ok alloc_percpu_ok : Bool) : kernel × Int :=
  match kzalloc_pcrw K kzalloc_ok with
  | (K1, none) => (K1, -ENOMEM)
  | (K1, some pcrw0) =>
    let pcrw := { pcrw0 with count := amount }
    match alloc_percpu_gfp K1 alloc_percpu_ok with
    | (K2, none) =>
      let K3 := K2.store fbc { K2.mem fbc with counters := none }
      (kfree K3 (some pcrw), -ENOMEM)
    | (K2, some cs) =>
      let K3 := K2.store fbc { counters := some cs, pcrw := some pcrw, sum_cnt := 0 }
      ({ K3 with percpu_counters := fbc :: K3.percpu_counters }, 0)

/-- The function `percpu_counter_destroy` on the counter at address `fbc`:
nothing when `counters` is `NULL`; else unlink the node of the counter from
the registry, free the per-cpu area and the shared part and clear both
pointers. -/
def percpu_counter_destroy (K : kernel) (fbc : Nat) : Option kernel :=
  match (K.mem fbc).counters with
  | none => some K
  | some cs =>
    match (K.mem fbc).pcrw with
    | none => none
    | some pcrw =>
      let K1 := { K with percpu_counters := K.percpu_counters.erase fbc }
      let K2 := free_percpu K1 (some cs)
      let K3 := K2.store fbc { K2.mem fbc with counters := none }
      let K4 := kfree K3 (some pcrw)
      some (K4.store fbc { K4.mem fbc with pcrw := none })

/-- The function `compute_batch_value`: `nr = num_online_cpus()` as an `int`,
then `percpu_counter_batch = max(32, nr*2)`. -/
def compute_batch_value (K : kernel) : kernel :=
  let nr := wrap_s32 (num_online_cpus K.nr_cpu_ids K.cpu_online_mask)
  { K with percpu_counter_batch := max 32 (wrap_s32 (nr * 2)) }

/-- Modelled from the spec: the hotplug action codes of `linux/cpu.h`, which
is not in the source tree; `CPU_DEAD` announces a removed unit. -/
def CPU_DEAD : Nat := 7

/-- Modelled from the spec: the hotplug action codes of `linux/cpu.h`, which
is not in the source tree; `CPU_DEAD_FROZEN` announces a unit removed while
tasks are frozen. -/
def CPU_DEAD_FROZEN : Nat := 23

/-- Modelled from the spec: the hotplug action codes of `linux/cpu.h`, which
is not in the source tree; `CPU_ONLINE` announces an added unit. -/
def CPU_ONLINE : Nat := 2

/-- The body of the loop of `percpu_counter_hotcpu_callback` for one
registered counter: add the slot of `cpu` to the shared `count` and zero the
slot. -/
def drain_entry (c : percpu_counter) (cpu : Nat) : Option percpu_counter :=
  match c.pcrw with
  | none => none
  | some pcrw =>
    match c.counters with
    | none => none
    | some cs =>
      some { c with
        pcrw := some { pcrw with count := wrap_s64 (pcrw.count + cs.getD cpu 0) }
        counters := some (cs.set cpu 0) }

/-- The loop `list_for_each_entry(pcrw, &percpu_counters, list)` of
`percpu_counter_hotcpu_callback` over the nodes that are left. -/
def drain_loop (mem : Nat → percpu_counter) (cpu : Nat) : List Nat → Option (Nat → percpu_counter)
  | [] => some mem
  | fbc :: rest =>
    match drain_entry (mem fbc) cpu with
    | none => none
    | some c => drain_loop (Function.update mem fbc c) cpu rest

/-- The function `percpu_counter_hotcpu_callback`: recompute the batch; for
`CPU_DEAD` and `CPU_DEAD_FROZEN` drain the slot of the cpu `hcpu` of every
registered counter. -/
def percpu_counter_hotcpu_callback (K : kernel) (action : Nat) (hcpu : Nat) : Option kernel :=
  let K1 := compute_batch_value K
  if action ≠ CPU_DEAD ∧ action ≠ CPU_DEAD_FROZEN then some K1
  else
    let cpu := hcpu % 2 ^ 32
    match drain_loop K1.mem cpu K1.percpu_counters with
    | none => none
    | some mem => some { K1 with mem := mem }

/-! ## Sequences of updates -/

/-- One update: the cpu it runs on, the amount and the batch. -/
structure update where
  cpu : Nat
  amount : Int
  batch : Int
  deriving DecidableEq, Repr

/-- Apply updates one after another with `__percpu_counter_add`. -/
def run_updates (fbc : percpu_counter) : List update → Option percpu_counter
  | [] => some fbc
  | u :: us =>
    match __percpu_counter_add fbc u.cpu u.amount u.batch with
    | none => none
    | some fbc1 => run_updates fbc1 us

/-- The sum of the slots of the cpus of a list. -/
def slot_sum (cs : List Int) (cpus : List Nat) : Int :=
  (cpus.map (fun cpu => cs.getD cpu 0)).sum

/-- The exact integer `count + slowcount + ` the slots of the online cpus. -/
def logical_value (nr_cpu_ids : Nat) (cpu_online_mask : Nat → Bool) (fbc : percpu_counter) : Int :=
  match fbc.pcrw, fbc.counters with
  | some pcrw, some cs =>
    pcrw.count + pcrw.slowcount + slot_sum cs (online_cpus nr_cpu_ids cpu_online_mask)
  | _, _ => 0

/-- A kernel state for examples: `n` cpus, all online, no counter. -/
def example_kernel (n : Nat) : kernel :=
  { mem := fun _ => { counters := none, pcrw := none, sum_cnt := 0 }
    percpu_counters := []
    percpu_counter_batch := 32
    nr_cpu_ids := n
    cpu_online_mask := fun _ => true
    kmalloc_live := 0
    percpu_live := 0 }

/-- A kernel state for examples: four cpus, all online, and one registered
counter at address `7` with pending slots. -/
def example_registered : kernel :=
  { mem := fun a =>
      if a = 7 then { counters := some [3, 5, 0, -2], pcrw := some ⟨100, 0, 2⟩, sum_cnt := 0 }
      else { counters := none, pcrw := none, sum_cnt := 0 }
    percpu_counters := [7]
    percpu_counter_batch := 32
    nr_cpu_ids := 4
    cpu_online_mask := fun _ => true
    kmalloc_live := 1
    percpu_live := 1 }

/-! ## Predicates used by the statements -/

/-- The counter is initialised: both pointers are set, the per-cpu area has
one slot per possible cpu, and every field holds a value of its type. -/
def counter_ok (nr_cpu_ids : Nat) (fbc : percpu_counter) : Prop :=
  ∃ pcrw cs, fbc.pcrw = some pcrw ∧ fbc.counters = some cs ∧ cs.length = nr_cpu_ids ∧
    (∀ x ∈ cs, is_s32 x) ∧ is_s64 pcrw.count ∧ is_s64 pcrw.slowcount ∧ is_s32 fbc.sum_cnt

/-- Every slot of the per-cpu area is at most `bound` in absolute value. -/
def slots_within (bound : Int) (fbc : percpu_counter) : Prop :=
  ∀ cs, fbc.counters = some cs → ∀ x ∈ cs, |x| ≤ bound

/-- The updates all run on online cpus and carry an `s32` batch. -/
def updates_ok (nr_cpu_ids : Nat) (cpu_online_mask : Nat → Bool) (us : List update) : Prop :=
  ∀ u ∈ us, u.cpu < nr_cpu_ids ∧ cpu_online_mask u.cpu = true ∧ is_s32 u.batch

/-- The sign of an integer as `__percpu_counter_compare` reports it. -/
def sign (x : Int) : Int := if x > 0 then 1 else if x < 0 then -1 else 0

/-- Both pointers of the counter are set. -/
def counter_live (c : percpu_counter) : Prop :=
  c.pcrw.isSome = true ∧ c.counters.isSome = true

instance (c : percpu_counter) : Decidable (counter_live c) :=
  inferInstanceAs (Decidable (c.pcrw.isSome = true ∧ c.counters.isSome = true))

/-- Every registered counter has both pointers set. -/
def registry_ok (K : kernel) : Prop :=
  ∀ b ∈ K.percpu_counters, counter_live (K.mem b)

/-- Modelled from the spec: the capacity-change feed, which is not in the
source tree, takes a removed unit out of the active set before it announces
the removal. -/
def cpu_removed (K : kernel) (u : Nat) : kernel :=
  { K with cpu_online_mask := fun i => if i = u then false else K.cpu_online_mask i }

/-- The counter after the drain of the slot of `cpu`, the counter itself when
a pointer is `NULL`. -/
def drained (c : percpu_counter) (cpu : Nat) : percpu_counter :=
  (drain_entry c cpu).getD c

/-- The `slowcount` of a counter, `0` without a shared part. -/
def slowcount_of (fbc : percpu_counter) : Int :=
  match fbc.pcrw with
  | some pcrw => pcrw.slowcount
  | none => 0

/-! ## The steps of the sum and of an update -/

/-- The first step of `__percpu_counter_sum`: `atomic_inc(&fbc->sum_cnt)`. -/
def sum_begin (fbc : percpu_counter) : percpu_counter :=
  { fbc with sum_cnt := wrap_s32 (fbc.sum_cnt + 1) }

/-- The retry loop of `__percpu_counter_sum` on a counter: the value of `ret`
when the loop is left. -/
def sum_pass (nr_cpu_ids : Nat) (cpu_online_mask : Nat → Bool) (fbc : percpu_counter)
    (fuel : Nat) : Option Int :=
  match fbc.pcrw with
  | none => none
  | some pcrw =>
    match fbc.counters with
    | none => none
    | some cs => sum_retry pcrw cs (online_cpus nr_cpu_ids cpu_online_mask) fuel

/-- The step of `__percpu_counter_sum` after the loop:
`atomic_dec(&fbc->sum_cnt)`. -/
def sum_end (fbc : percpu_counter) : percpu_counter :=
  { fbc with sum_cnt := wrap_s32 (fbc.sum_cnt - 1) }

/-- The last step of `__percpu_counter_sum`: `ret += slowcount`, the value
returned. -/
def sum_finish (fbc : percpu_counter) (ret : Int) : Option Int :=
  match fbc.pcrw with
  | none => none
  | some pcrw => some (wrap_s64 (ret + pcrw.slowcount))

/-- The test `if (atomic_read(&fbc->sum_cnt))` of `__percpu_counter_add`:
`true` when the update is routed to `slowcount`. -/
def add_route (fbc : percpu_counter) : Bool :=
  decide (fbc.sum_cnt ≠ 0)

/-- The routed branch of `__percpu_counter_add`:
`atomic64_add(amount, &pcrw->slowcount)`. -/
def add_slow (fbc : percpu_counter) (amount : Int) : Option percpu_counter :=
  match fbc.pcrw with
  | none => none
  | some pcrw =>
    some { fbc with pcrw := some { pcrw with slowcount := wrap_s64 (pcrw.slowcount + amount) } }

/-- The test `count >= batch || count <= -batch` of `__percpu_counter_add`
on the slot value `pcount`. -/
def flush_test (pcount amount batch : Int) : Bool :=
  decide (wrap_s64 (pcount + amount) ≥ batch ∨ wrap_s64 (pcount + amount) ≤ wrap_s32 (-batch))

/-- The block of `__percpu_counter_add` between `preempt_disable()` and
`preempt_enable()`, run on the cpu `cpu`. -/
def add_local (fbc : percpu_counter) (cpu : Nat) (amount batch : Int) : Option percpu_counter :=
  match fbc.pcrw with
  | none => none
  | some pcrw =>
    match fbc.counters with
    | none => none
    | some cs =>
      let pcount := cs.getD cpu 0
      let count := wrap_s64 (pcount + amount)
      if flush_test pcount amount batch = true then
        some { fbc with
          pcrw := some { pcrw with
            count := wrap_s64 (pcrw.count + count)
            sequence := wrap_u32 (pcrw.sequence + 1) }
          counters := some (cs.set cpu (wrap_s32 (pcount - wrap_s64 (count - amount)))) }
      else
        some { fbc with counters := some (cs.set cpu (wrap_s32 (wrap_s64 (pcount + amount)))) }

/-- The update takes the flush branch: no sum is in flight and the test
`count >= batch || count <= -batch` holds. -/
def takes_flush (fbc : percpu_counter) (cpu : Nat) (amount batch : Int) : Bool :=
  match fbc.counters with
  | none => false
  | some cs => !add_route fbc && flush_test (cs.getD cpu 0) amount batch

/-! ## Executions on one counter -/

/-- Modelled from the spec: the capacity-change feed, which is not in the
source tree, puts an added unit into the active set before it announces the
addition. -/
def cpu_added (K : kernel) (u : Nat) : kernel :=
  { K with cpu_online_mask := fun i => if i = u then true else K.cpu_online_mask i }

/-- The steps of an execution on the counter at a fixed address: an update on
an online cpu, a set, the three steps of a sum (the increment of `sum_cnt`,
the walk, the decrement), the removal of a cpu with its drain, and the
addition of a cpu. -/
inductive op where
  | update (cpu : Nat) (amount batch : Int)
  | set (amount : Int)
  | sum_begin
  | sum_walk
  | sum_end
  | cpu_dead (cpu : Nat)
  | cpu_online (cpu : Nat)
  deriving DecidableEq, Repr

/-- The state of an execution: the kernel state, the number of sums that have
begun and not ended, and the number of updates that took the flush branch. -/
structure machine where
  K : kernel
  in_flight : Nat
  flushes : Nat

/-- One step on the counter at address `a`; `none` when the step is not
enabled (an update on a cpu that is not online, the end of a sum that has not
begun, the removal of a cpu that is not online, the addition of one that is)
or a function faults. -/
def step (a : Nat) (s : machine) : op → Option machine
  | .update cpu amount batch =>
    if cpu < s.K.nr_cpu_ids ∧ s.K.cpu_online_mask cpu = true ∧ is_s32 batch then
      match __percpu_counter_add (s.K.mem a) cpu amount batch with
      | none => none
      | some c =>
        some { K := s.K.store a c
               in_flight := s.in_flight
               flushes := s.flushes + (if takes_flush (s.K.mem a) cpu amount batch then 1 else 0) }
    else none
  | .set amount =>
    match percpu_counter_set (s.K.mem a) amount with
    | none => none
    | some c => some { s with K := s.K.store a c }
  | .sum_begin =>
    some { s with K := s.K.store a (sum_begin (s.K.mem a)), in_flight := s.in_flight + 1 }
  | .sum_walk =>
    if 0 < s.in_flight then
      match sum_pass s.K.nr_cpu_ids s.K.cpu_online_mask (s.K.mem a) 1 with
      | none => none
      | some _ => some s
    else none
  | .sum_end =>
    if 0 < s.in_flight then
      some { s with K := s.K.store a (sum_end (s.K.mem a)), in_flight := s.in_flight - 1 }
    else none
  | .cpu_dead cpu =>
    if cpu < s.K.nr_cpu_ids ∧ s.K.cpu_online_mask cpu = true then
      match percpu_counter_hotcpu_callback (cpu_removed s.K cpu) CPU_DEAD cpu with
      | none => none
      | some K1 => some { s with K := K1 }
    else none
  | .cpu_online cpu =>
    if cpu < s.K.nr_cpu_ids ∧ s.K.cpu_online_mask cpu = false then
      match percpu_counter_hotcpu_callback (cpu_added s.K cpu) CPU_ONLINE cpu with
      | none => none
      | some K1 => some { s with K := K1 }
    else none

/-- Run the steps one after another. -/
def run (a : Nat) : machine → List op → Option machine
  | s, [] => some s
  | s, o :: os =>
    match step a s o with
    | none => none
    | some s1 => run a s1 os

/-- The execution state right after a successful `__percpu_counter_init` of
the counter at address `a`. -/
def machine_init (K : kernel) (a : Nat) (v : Int) : machine :=
  { K := (__percpu_counter_init K a v true true).1, in_flight := 0, flushes := 0 }

/-- The state at the end of an execution, the starting state when a step is
not enabled. -/
def run_result (a : Nat) (s : machine) (os : List op) : machine :=
  (run a s os).getD s

/-- The state is well formed: the registered counters have both pointers set,
the counter at `a` is registered and has one slot per possible cpu, and the
cpu numbers fit an `unsigned int`. -/
def machine_ok (a : Nat) (s : machine) : Prop :=
  registry_ok s.K ∧ a ∈ s.K.percpu_counters ∧ s.K.nr_cpu_ids ≤ 2 ^ 32 ∧
    ∃ p cs, (s.K.mem a).pcrw = some p ∧ (s.K.mem a).counters = some cs ∧
      cs.length = s.K.nr_cpu_ids

/-- The slot of every cpu that is not online is zero. -/
def offline_zero (a : Nat) (s : machine) : Prop :=
  ∀ cs, (s.K.mem a).counters = some cs →
    ∀ i, s.K.cpu_online_mask i = false → cs.getD i 0 = 0

/-- Every slot of the counter at `a` is below `B` in absolute value. -/
def slots_below (a : Nat) (B : Int) (s : machine) : Prop :=
  ∀ cs, (s.K.mem a).counters = some cs → ∀ x ∈ cs, |x| < B

/-- The `sequence` of the counter at `a` is a value of `unsigned int`. -/
def sequence_in_range (a : Nat) (s : machine) : Prop :=
  ∀ p, (s.K.mem a).pcrw = some p → 0 ≤ p.sequence ∧ p.sequence < 2 ^ 32

/-- Between `s0` and `s` the `sequence` of the counter at `a` has advanced,
modulo `2^32`, by the number of updates that took the flush branch. -/
def sequence_tracks (a : Nat) (s0 s : machine) : Prop :=
  s0.flushes ≤ s.flushes ∧
  ∀ p0 p, (s0.K.mem a).pcrw = some p0 → (s.K.mem a).pcrw = some p →
    wrap_u32 p.sequence = wrap_u32 (p0.sequence + ((s.flushes : Int) - (s0.flushes : Int)))

/-- The `sequence` of a counter, `0` without a shared part. -/
def sequence_of (fbc : percpu_counter) : Int :=
  match fbc.pcrw with
  | some pcrw => pcrw.sequence
  | none => 0

/-- The step is not the removal of a cpu. -/
def op.no_drain : op → Bool
  | .cpu_dead _ => false
  | _ => true

/-- The step is not an update with a batch other than `B`. -/
def op.batch_is (B : Int) : op → Bool
  | .update _ _ batch => decide (batch = B)
  | _ => true

/-! ## Arithmetic of the wrap-around -/

theorem wrap_s64_wrap_add (a b : Int) : wrap_s64 (wrap_s64 a + b) = wrap_s64 (a + b) := by
  unfold wrap_s64; omega

theorem wrap_s64_add_wrap (a b : Int) : wrap_s64 (a + wrap_s64 b) = wrap_s64 (a + b) := by
  unfold wrap_s64; omega

theorem wrap_s64_idem (a : Int) : wrap_s64 (wrap_s64 a) = wrap_s64 a := by
  unfold wrap_s64; omega

theorem wrap_s64_of_is_s64 {a : Int} (h : is_s64 a) : wrap_s64 a = a := by
  unfold is_s64 S64_MIN S64_MAX at h; unfold wrap_s64; omega

theorem is_s64_wrap_s64 (a : Int) : is_s64 (wrap_s64 a) := by
  unfold is_s64 S64_MIN S64_MAX wrap_s64; omega

theorem wrap_s32_of_is_s32 {a : Int} (h : is_s32 a) : wrap_s32 a = a := by
  unfold is_s32 INT_MIN INT_MAX at h; unfold wrap_s32; omega

theorem is_s32_wrap_s32 (a : Int) : is_s32 (wrap_s32 a) := by
  unfold is_s32 INT_MIN INT_MAX wrap_s32; omega

theorem wrap_s32_inc_dec {a : Int} (h : is_s32 a) : wrap_s32 (wrap_s32 (a + 1) - 1) = a := by
  unfold is_s32 INT_MIN INT_MAX at h; unfold wrap_s32; omega

theorem wrap_s64_congr {a b : Int} (h : a ≡ b [ZMOD 2 ^ 64]) : wrap_s64 a = wrap_s64 b := by
  unfold Int.ModEq at h; unfold wrap_s64; omega

theorem flush_slot_zero (p amount : Int) :
    wrap_s32 (p - wrap_s64 (wrap_s64 (p + amount) - amount)) = 0 := by
  unfold wrap_s64 wrap_s32; omega

/-! ## The slots of the per-cpu area -/

theorem getD_set_slot (cs : List Int) (u i : Nat) (v : Int) :
    (cs.set u v).getD i 0 = if i = u ∧ u < cs.length then v else cs.getD i 0 := by
  simp only [List.getD_eq_getElem?_getD, List.getElem?_set]
  by_cases h : u = i
  · subst h
    by_cases hl : u < cs.length
    · simp [hl]
    · simp [hl, List.getElem?_eq_none (Nat.le_of_not_lt hl)]
  · have h2 : ¬ i = u := fun e => h e.symm
    simp [h, h2]

theorem slot_sum_set_not_mem (cs : List Int) (u : Nat) (v : Int) (cpus : List Nat)
    (h : u ∉ cpus) : slot_sum (cs.set u v) cpus = slot_sum cs cpus := by
  induction cpus with
  | nil => rfl
  | cons c rest ih =>
    have hc : c ≠ u := fun e => h (by simp [e])
    have hr : u ∉ rest := fun e => h (by simp [e])
    simp only [slot_sum, List.map_cons, List.sum_cons] at ih ⊢
    rw [ih hr, getD_set_slot]
    simp [hc]

theorem slot_sum_set_mem (cs : List Int) (u : Nat) (v : Int) (cpus : List Nat)
    (hnd : cpus.Nodup) (h : u ∈ cpus) (hu : u < cs.length) :
    slot_sum (cs.set u v) cpus = slot_sum cs cpus + (v - cs.getD u 0) := by
  induction cpus with
  | nil => simp at h
  | cons c rest ih =>
    rw [List.nodup_cons] at hnd
    by_cases hc : c = u
    · subst hc
      have := slot_sum_set_not_mem cs c v rest hnd.1
      simp only [slot_sum, List.map_cons, List.sum_cons] at this ⊢
      rw [this, getD_set_slot]
      simp [hu]
      ring
    · have hr : u ∈ rest := by
        rcases List.mem_cons.1 h with e | e
        · exact absurd e.symm hc
        · exact e
      have := ih hnd.2 hr
      simp only [slot_sum, List.map_cons, List.sum_cons] at this ⊢
      rw [this, getD_set_slot]
      simp [hc]
      ring

theorem online_cpus_nodup (n : Nat) (m : Nat → Bool) : (online_cpus n m).Nodup :=
  (List.nodup_range n).filter _

theorem mem_online_cpus {n : Nat} {m : Nat → Bool} {u : Nat} :
    u ∈ online_cpus n m ↔ u < n ∧ m u = true := by
  simp [online_cpus]

theorem abs_slot_sum_le (cs : List Int) (bound : Int) (hb : 0 ≤ bound)
    (h : ∀ x ∈ cs, |x| ≤ bound) (cpus : List Nat) :
    |slot_sum cs cpus| ≤ bound * cpus.length := by
  induction cpus with
  | nil => simp [slot_sum]
  | cons c rest ih =>
    have hc : |cs.getD c 0| ≤ bound := by
      rw [List.getD_eq_getElem?_getD]
      cases hq : cs[c]? with
      | none => simpa using hb
      | some x =>
        have hx : x ∈ cs := List.getElem?_mem hq
        simpa using h x hx
    simp only [slot_sum, List.map_cons, List.sum_cons, List.length_cons] at ih ⊢
    have := abs_add (cs.getD c 0) ((rest.map (fun cpu => cs.getD cpu 0)).sum)
    push_cast
    nlinarith

/-! ## The exact sum -/

theorem sum_walk_congr (cs : List Int) (cpus : List Nat) (init : Int) :
    wrap_s64 (cpus.foldl (fun ret cpu => wrap_s64 (ret + cs.getD cpu 0)) init) =
      wrap_s64 (init + slot_sum cs cpus) := by
  induction cpus generalizing init with
  | nil => simp [slot_sum]
  | cons c rest ih =>
    simp only [List.foldl_cons, slot_sum, List.map_cons, List.sum_cons] at ih ⊢
    rw [ih, wrap_s64_wrap_add, add_assoc]

theorem sum_retry_succ (pcrw : percpu_counter_rw) (cs : List Int) (cpus : List Nat) (fuel : Nat) :
    sum_retry pcrw cs cpus (fuel + 1) = some (sum_walk pcrw cs cpus) := by
  simp [sum_retry]

theorem sum_spec (n : Nat) (m : Nat → Bool) (fbc : percpu_counter) (fuel : Nat)
    (pcrw : percpu_counter_rw) (cs : List Int)
    (h1 : fbc.pcrw = some pcrw) (h2 : fbc.counters = some cs) :
    __percpu_counter_sum n m fbc (fuel + 1) =
      some (wrap_s64 (logical_value n m fbc),
        { fbc with sum_cnt := wrap_s32 (wrap_s32 (fbc.sum_cnt + 1) - 1) }) := by
  have hv : wrap_s64 (sum_walk pcrw cs (online_cpus n m) + pcrw.slowcount) =
      wrap_s64 (pcrw.count + pcrw.slowcount + slot_sum cs (online_cpus n m)) := by
    rw [← wrap_s64_wrap_add, sum_walk, sum_walk_congr, wrap_s64_wrap_add]
    congr 1; ring
  simp only [__percpu_counter_sum, h1, h2, sum_retry_succ, logical_value, hv]

theorem sum_spec_same (n : Nat) (m : Nat → Bool) (fbc : percpu_counter) (fuel : Nat)
    (pcrw : percpu_counter_rw) (cs : List Int)
    (h1 : fbc.pcrw = some pcrw) (h2 : fbc.counters = some cs) (hsc : is_s32 fbc.sum_cnt) :
    __percpu_counter_sum n m fbc (fuel + 1) = some (wrap_s64 (logical_value n m fbc), fbc) := by
  rw [sum_spec n m fbc fuel pcrw cs h1 h2, wrap_s32_inc_dec hsc]

/-! ## One update -/

theorem add_local_spec (fbc : percpu_counter) (cpu : Nat) (amount batch : Int)
    (pcrw : percpu_counter_rw) (cs : List Int)
    (h1 : fbc.pcrw = some pcrw) (h2 : fbc.counters = some cs) (h0 : fbc.sum_cnt = 0)
    (hb : is_s32 batch) :
    (__percpu_counter_add fbc cpu amount batch =
        some { fbc with
          pcrw := some { pcrw with
            count := wrap_s64 (pcrw.count + wrap_s64 (cs.getD cpu 0 + amount))
            sequence := wrap_u32 (pcrw.sequence + 1) }
          counters := some (cs.set cpu 0) } ∧
      (wrap_s64 (cs.getD cpu 0 + amount) ≥ batch ∨
        wrap_s64 (cs.getD cpu 0 + amount) ≤ wrap_s32 (-batch))) ∨
    (__percpu_counter_add fbc cpu amount batch =
        some { fbc with counters := some (cs.set cpu (wrap_s64 (cs.getD cpu 0 + amount))) } ∧
      0 < batch ∧ |wrap_s64 (cs.getD cpu 0 + amount)| ≤ batch - 1) := by
  by_cases hf : wrap_s64 (cs.getD cpu 0 + amount) ≥ batch ∨
      wrap_s64 (cs.getD cpu 0 + amount) ≤ wrap_s32 (-batch)
  · left
    refine ⟨?_, hf⟩
    simp only [__percpu_counter_add, h1, h2, h0, ne_eq, not_true_eq_false, if_false, hf, if_true,
      flush_slot_zero]
  · right
    have hlt : wrap_s64 (cs.getD cpu 0 + amount) < batch ∧
        wrap_s32 (-batch) < wrap_s64 (cs.getD cpu 0 + amount) := by
      constructor
      · by_contra hc; exact hf (Or.inl (not_lt.1 hc))
      · by_contra hc; exact hf (Or.inr (not_lt.1 hc))
    have hrange : 0 < batch ∧ |wrap_s64 (cs.getD cpu 0 + amount)| ≤ batch - 1 := by
      obtain ⟨ha, hb2⟩ := hlt
      unfold is_s32 INT_MIN INT_MAX at hb
      generalize wrap_s64 (cs.getD cpu 0 + amount) = c at ha hb2
      unfold wrap_s32 at hb2
      rw [abs_le]
      omega
    have hs32 : wrap_s32 (wrap_s64 (cs.getD cpu 0 + amount)) =
        wrap_s64 (cs.getD cpu 0 + amount) := by
      apply wrap_s32_of_is_s32
      obtain ⟨hp, hc⟩ := hrange
      rw [abs_le] at hc
      unfold is_s32 INT_MIN INT_MAX at hb ⊢
      omega
    refine ⟨?_, hrange⟩
    simp only [__percpu_counter_add, h1, h2, h0, ne_eq, not_true_eq_false, if_false, hf, hs32]

theorem mem_set_slot {cs : List Int} {u : Nat} {v x : Int} (h : x ∈ cs.set u v) :
    x ∈ cs ∨ x = v := List.mem_or_eq_of_mem_set h

theorem add_step (n : Nat) (m : Nat → Bool) (fbc : percpu_counter) (cpu : Nat)
    (amount batch : Int) (hok : counter_ok n fbc) (h0 : fbc.sum_cnt = 0)
    (hcpu : cpu < n) (hon : m cpu = true) (hb : is_s32 batch) :
    ∃ fbc1, __percpu_counter_add fbc cpu amount batch = some fbc1 ∧
      counter_ok n fbc1 ∧ fbc1.sum_cnt = 0 ∧
      wrap_s64 (logical_value n m fbc1) = wrap_s64 (logical_value n m fbc + amount) ∧
      slowcount_of fbc1 = slowcount_of fbc ∧
      (∀ bound, max (batch - 1) 0 ≤ bound → slots_within bound fbc → slots_within bound fbc1) := by
  obtain ⟨pcrw, cs, h1, h2, hlen, hs32, hc64, hsl64, hsc⟩ := hok
  have hmem : cpu ∈ online_cpus n m := mem_online_cpus.2 ⟨hcpu, hon⟩
  have hculen : cpu < cs.length := by omega
  rcases add_local_spec fbc cpu amount batch pcrw cs h1 h2 h0 hb with ⟨he, _⟩ | ⟨he, hpos, habs⟩
  · refine ⟨_, he, ?_, h0, ?_, ?_, ?_⟩
    · refine ⟨_, _, rfl, rfl, by simpa using hlen, ?_, is_s64_wrap_s64 _, hsl64, hsc⟩
      intro x hx
      rcases mem_set_slot hx with hx | hx
      · exact hs32 x hx
      · subst hx; unfold is_s32 INT_MIN INT_MAX; omega
    · simp only [logical_value, h1, h2]
      rw [slot_sum_set_mem cs cpu 0 _ (online_cpus_nodup n m) hmem hculen]
      generalize slot_sum cs (online_cpus n m) = S
      generalize cs.getD cpu 0 = p
      unfold wrap_s64; omega
    · simp [slowcount_of, h1]
    · intro bound hbound hw cs1 hcs1 x hx
      simp only [Option.some.injEq] at hcs1
      subst hcs1
      rcases mem_set_slot hx with hx | hx
      · exact hw cs h2 x hx
      · subst hx
        have : (0 : Int) ≤ max (batch - 1) 0 := le_max_right _ _
        simpa using le_trans this hbound
  · refine ⟨_, he, ?_, h0, ?_, ?_, ?_⟩
    · refine ⟨_, _, h1, rfl, by simpa using hlen, ?_, hc64, hsl64, hsc⟩
      intro x hx
      rcases mem_set_slot hx with hx | hx
      · exact hs32 x hx
      · subst hx
        rw [abs_le] at habs
        unfold is_s32 INT_MIN INT_MAX at hb ⊢
        omega
    · simp only [logical_value, h1, h2]
      rw [slot_sum_set_mem cs cpu _ _ (online_cpus_nodup n m) hmem hculen]
      generalize slot_sum cs (online_cpus n m) = S
      generalize cs.getD cpu 0 = p
      unfold wrap_s64; omega
    · simp [slowcount_of, h1]
    · intro bound hbound hw cs1 hcs1 x hx
      simp only [Option.some.injEq] at hcs1
      subst hcs1
      rcases mem_set_slot hx with hx | hx
      · exact hw cs h2 x hx
      · subst hx
        have : batch - 1 ≤ max (batch - 1) 0 := le_max_left _ _
        exact le_trans habs (le_trans this hbound)

theorem run_updates_spec (n : Nat) (m : Nat → Bool) (us : List update) :
    ∀ fbc : percpu_counter, counter_ok n fbc → fbc.sum_cnt = 0 → updates_ok n m us →
    ∃ fbc1, run_updates fbc us = some fbc1 ∧
      counter_ok n fbc1 ∧ fbc1.sum_cnt = 0 ∧
      wrap_s64 (logical_value n m fbc1) =
        wrap_s64 (logical_value n m fbc + (us.map (fun u => u.amount)).sum) ∧
      slowcount_of fbc1 = slowcount_of fbc ∧
      (∀ bound, (∀ u ∈ us, max (u.batch - 1) 0 ≤ bound) →
        slots_within bound fbc → slots_within bound fbc1) := by
  induction us with
  | nil =>
    intro fbc hok h0 _
    exact ⟨fbc, rfl, hok, h0, by simp, rfl, fun _ _ h => h⟩
  | cons u rest ih =>
    intro fbc hok h0 hus
    obtain ⟨hcpu, hon, hb⟩ := hus u (by simp)
    obtain ⟨fbc1, he, hok1, h01, hl1, hs1, hw1⟩ :=
      add_step n m fbc u.cpu u.amount u.batch hok h0 hcpu hon hb
    obtain ⟨fbc2, he2, hok2, h02, hl2, hs2, hw2⟩ :=
      ih fbc1 hok1 h01 (fun v hv => hus v (by simp [hv]))
    refine ⟨fbc2, by simp [run_updates, he, he2], hok2, h02, ?_, by rw [hs2, hs1], ?_⟩
    · rw [hl2, ← wrap_s64_wrap_add, hl1, wrap_s64_wrap_add]
      congr 1
      simp only [List.map_cons, List.sum_cons]
      ring
    · intro bound hbound hw
      exact hw2 bound (fun v hv => hbound v (by simp [hv]))
        (hw1 bound (hbound u (by simp)) hw)

/-! ## Initialisation -/

theorem init_success (K : kernel) (a : Nat) (v : Int) :
    __percpu_counter_init K a v true true =
      ({ K with
          mem := Function.update K.mem a
            { counters := some (List.replicate K.nr_cpu_ids 0)
              pcrw := some { count := v, slowcount := 0, sequence := 0 }
              sum_cnt := 0 }
          percpu_counters := a :: K.percpu_counters
          kmalloc_live := K.kmalloc_live + 1
          percpu_live := K.percpu_live + 1 }, 0) := by
  simp [__percpu_counter_init, kzalloc_pcrw, alloc_percpu_gfp, kernel.store]

theorem init_mem (K : kernel) (a : Nat) (v : Int) :
    (__percpu_counter_init K a v true true).1.mem a =
      { counters := some (List.replicate K.nr_cpu_ids 0)
        pcrw := some { count := v, slowcount := 0, sequence := 0 }
        sum_cnt := 0 } := by
  simp [init_success]

theorem slot_sum_zero (cs : List Int) (h : ∀ x ∈ cs, x = 0) (cpus : List Nat) :
    slot_sum cs cpus = 0 := by
  induction cpus with
  | nil => rfl
  | cons c rest ih =>
    have hc : cs.getD c 0 = 0 := by
      rw [List.getD_eq_getElem?_getD]
      cases hq : cs[c]? with
      | none => rfl
      | some x => simpa using h x (List.getElem?_mem hq)
    simp only [slot_sum, List.map_cons, List.sum_cons] at ih ⊢
    rw [ih, hc]; rfl

theorem init_counter_ok (K : kernel) (a : Nat) (v : Int) (hv : is_s64 v) :
    counter_ok K.nr_cpu_ids ((__percpu_counter_init K a v true true).1.mem a) := by
  rw [init_mem]
  refine ⟨_, _, rfl, rfl, by simp, ?_, hv, ?_, ?_⟩
  · intro x hx
    rw [List.eq_of_mem_replicate hx]
    decide
  · show is_s64 0
    decide
  · show is_s32 0
    decide

theorem init_logical_value (K : kernel) (a : Nat) (v : Int) (n : Nat) (m : Nat → Bool) :
    logical_value n m ((__percpu_counter_init K a v true true).1.mem a) = v := by
  rw [init_mem]
  simp only [logical_value]
  rw [slot_sum_zero _ (fun x hx => List.eq_of_mem_replicate hx)]
  ring

/-! ## Claim C1 -/

/-- C1: on a counter created by `init(v0)`, any sequence of updates (each on an
online cpu, with any amount and any `s32` batch) runs to completion, and the
exact sum then returns `v0` plus the sum of the amounts in 64-bit signed
arithmetic, leaving the counter as the updates left it. -/
theorem sum_after_updates (K : kernel) (a : Nat) (v0 : Int) (us : List update)
    (hv0 : is_s64 v0) (hus : updates_ok K.nr_cpu_ids K.cpu_online_mask us) :
    (__percpu_counter_init K a v0 true true).2 = 0 ∧
    ∃ fbc1, run_updates ((__percpu_counter_init K a v0 true true).1.mem a) us = some fbc1 ∧
      ∀ fuel, __percpu_counter_sum K.nr_cpu_ids K.cpu_online_mask fbc1 (fuel + 1) =
        some (wrap_s64 (v0 + (us.map (fun u => u.amount)).sum), fbc1) := by
  refine ⟨by simp [init_success], ?_⟩
  obtain ⟨fbc1, he, hok, h0, hl, _, _⟩ :=
    run_updates_spec K.nr_cpu_ids K.cpu_online_mask us _ (init_counter_ok K a v0 hv0)
      (by rw [init_mem]) hus
  refine ⟨fbc1, he, fun fuel => ?_⟩
  obtain ⟨pcrw, cs, h1, h2, _, _, _, _, hsc⟩ := hok
  rw [sum_spec_same _ _ fbc1 fuel pcrw cs h1 h2 hsc, hl, init_logical_value]

/-- Witness of C1: scenario 1 of the specification, `init(c,0)` and one update
by `10` with batch `32` on cpu `0` of four. -/
theorem sum_after_updates_witness :
    is_s64 0 ∧
    updates_ok (example_kernel 4).nr_cpu_ids (example_kernel 4).cpu_online_mask [⟨0, 10, 32⟩] ∧
    ((__percpu_counter_init (example_kernel 4) 7 0 true true).2 = 0 ∧
    ∃ fbc1, run_updates ((__percpu_counter_init (example_kernel 4) 7 0 true true).1.mem 7)
        [⟨0, 10, 32⟩] = some fbc1 ∧
      ∀ fuel, __percpu_counter_sum (example_kernel 4).nr_cpu_ids
          (example_kernel 4).cpu_online_mask fbc1 (fuel + 1) =
        some (wrap_s64 (0 + (([⟨0, 10, 32⟩] : List update).map (fun u => u.amount)).sum),
          fbc1)) :=
  ⟨by decide, by unfold updates_ok; decide,
    sum_after_updates (example_kernel 4) 7 0 [⟨0, 10, 32⟩] (by decide)
      (by unfold updates_ok; decide)⟩

/-! ## The comparison -/

theorem exact_path_sign (s rhs : Int) :
    (if s > rhs then (1 : Int) else if s < rhs then -1 else 0) = sign (s - rhs) := by
  unfold sign
  split_ifs <;> omega

theorem init_slots_within (K : kernel) (a : Nat) (v bound : Int) (hb : 0 ≤ bound) :
    slots_within bound ((__percpu_counter_init K a v true true).1.mem a) := by
  rw [init_mem]
  intro cs hcs x hx
  simp only [Option.some.injEq] at hcs
  subst hcs
  rw [List.eq_of_mem_replicate hx]
  simpa using hb

theorem init_slowcount (K : kernel) (a : Nat) (v : Int) :
    slowcount_of ((__percpu_counter_init K a v true true).1.mem a) = 0 := by
  rw [init_mem]; rfl

/-- The states reached from `init(v0)` by updates that all carry the batch
`B`: the run completes, the counter is initialised with no sum in flight and
an empty `slowcount`, and every slot is within `max (B - 1) 0`. -/
theorem run_same_batch (K : kernel) (a : Nat) (v0 : Int) (us : List update) (B : Int)
    (hv0 : is_s64 v0) (hus : updates_ok K.nr_cpu_ids K.cpu_online_mask us)
    (hB : ∀ u ∈ us, u.batch = B) :
    ∃ fbc1 pcrw cs, run_updates ((__percpu_counter_init K a v0 true true).1.mem a) us = some fbc1 ∧
      fbc1.pcrw = some pcrw ∧ fbc1.counters = some cs ∧ is_s32 fbc1.sum_cnt ∧
      pcrw.slowcount = 0 ∧ is_s64 pcrw.count ∧
      |slot_sum cs (online_cpus K.nr_cpu_ids K.cpu_online_mask)| ≤
        max (B - 1) 0 * (online_cpus K.nr_cpu_ids K.cpu_online_mask).length := by
  obtain ⟨fbc1, he, hok, _, _, hs, hw⟩ :=
    run_updates_spec K.nr_cpu_ids K.cpu_online_mask us _ (init_counter_ok K a v0 hv0)
      (by rw [init_mem]) hus
  obtain ⟨pcrw, cs, h1, h2, _, _, hc64, _, hsc⟩ := hok
  have hbound : (0 : Int) ≤ max (B - 1) 0 := le_max_right _ _
  have hw1 := hw (max (B - 1) 0) (fun u hu => by rw [hB u hu])
    (init_slots_within K a v0 _ hbound)
  refine ⟨fbc1, pcrw, cs, he, h1, h2, hsc, ?_, hc64, ?_⟩
  · rw [init_slowcount] at hs
    simpa [slowcount_of, h1] using hs
  · exact abs_slot_sum_le cs _ hbound (hw1 cs h2) _

/-! ## Claim C2 -/

/-- Counterexample of C3 as stated, in the two ways it fails.  (1) The batch
is not positive: after `init(0)` and one update by `5` with batch `0` the
read and the sum are both `5`, and their distance `0` is above
`(0 - 1) * 1`.  (2) The logical value leaves the `s64` range: after
`init(S64_MAX)` and one update by `1` with batch `32` the read is `S64_MAX`
and the sum is `S64_MIN`, further apart than `(32 - 1) * 1`. -/
theorem read_within_bound_counterexample :
    (∃ fbc, run_updates ((__percpu_counter_init (example_kernel 1) 0 0 true true).1.mem 0)
        [⟨0, 5, 0⟩] = some fbc ∧
      percpu_counter_read fbc = some 5 ∧
      __percpu_counter_sum 1 (fun _ => true) fbc 1 = some (5, fbc) ∧
      ¬ (|(5 : Int) - 5| ≤ (0 - 1) * (online_cpus 1 (fun _ => true)).length)) ∧
    (∃ fbc, run_updates ((__percpu_counter_init (example_kernel 1) 0 S64_MAX true true).1.mem 0)
        [⟨0, 1, 32⟩] = some fbc ∧
      percpu_counter_read fbc = some S64_MAX ∧
      __percpu_counter_sum 1 (fun _ => true) fbc 1 = some (S64_MIN, fbc) ∧
      ¬ (|S64_MAX - S64_MIN| ≤ (32 - 1) * (online_cpus 1 (fun _ => true)).length)) := by
  refine ⟨⟨_, rfl, ?_, ?_, ?_⟩, ⟨_, rfl, ?_, ?_, ?_⟩⟩ <;> decide

/-- C3 (amended): for every state reached from `init(v0)` by updates that all
carry the same positive batch `B`, when the exact logical value of the state
fits an `s64`, the approximate read (the shared `count` alone) and the exact
sum differ by at most `(B - 1)` times the number of online cpus. -/
theorem read_within_bound (K : kernel) (a : Nat) (v0 : Int) (us : List update) (B : Int)
    (hv0 : is_s64 v0) (hus : updates_ok K.nr_cpu_ids K.cpu_online_mask us)
    (hB : ∀ u ∈ us, u.batch = B) (hpos : 0 < B) :
    ∃ fbc1, run_updates ((__percpu_counter_init K a v0 true true).1.mem a) us = some fbc1 ∧
      (is_s64 (logical_value K.nr_cpu_ids K.cpu_online_mask fbc1) →
        ∀ fuel, ∃ r s, percpu_counter_read fbc1 = some r ∧
          __percpu_counter_sum K.nr_cpu_ids K.cpu_online_mask fbc1 (fuel + 1) = some (s, fbc1) ∧
          |r - s| ≤ (B - 1) * (online_cpus K.nr_cpu_ids K.cpu_online_mask).length) := by
  obtain ⟨fbc1, pcrw, cs, he, h1, h2, hsc, hslow, _, hA⟩ :=
    run_same_batch K a v0 us B hv0 hus hB
  refine ⟨fbc1, he, fun hfit fuel => ?_⟩
  have hsum := sum_spec_same K.nr_cpu_ids K.cpu_online_mask fbc1 fuel pcrw cs h1 h2 hsc
  have hlv : logical_value K.nr_cpu_ids K.cpu_online_mask fbc1 =
      pcrw.count + slot_sum cs (online_cpus K.nr_cpu_ids K.cpu_online_mask) := by
    simp [logical_value, h1, h2, hslow]
  rw [wrap_s64_of_is_s64 hfit, hlv] at hsum
  refine ⟨pcrw.count, _, by simp [percpu_counter_read, h1], hsum, ?_⟩
  have hm : max (B - 1) 0 = B - 1 := max_eq_left (by omega)
  rw [hm] at hA
  have : pcrw.count - (pcrw.count + slot_sum cs (online_cpus K.nr_cpu_ids K.cpu_online_mask)) =
      -slot_sum cs (online_cpus K.nr_cpu_ids K.cpu_online_mask) := by ring
  rw [this, abs_neg]
  exact hA

/-- Witness of C3 (amended): one update by `10` with batch `32` on cpu `0` of
four after `init(c,0)`. -/
theorem read_within_bound_witness :
    is_s64 0 ∧
    updates_ok (example_kernel 4).nr_cpu_ids (example_kernel 4).cpu_online_mask [⟨0, 10, 32⟩] ∧
    (∀ u ∈ ([⟨0, 10, 32⟩] : List update), u.batch = 32) ∧ (0 : Int) < 32 ∧
    ∃ fbc1, run_updates ((__percpu_counter_init (example_kernel 4) 7 0 true true).1.mem 7)
        [⟨0, 10, 32⟩] = some fbc1 ∧
      is_s64 (logical_value (example_kernel 4).nr_cpu_ids
        (example_kernel 4).cpu_online_mask fbc1) ∧
      ∀ fuel, ∃ r s, percpu_counter_read fbc1 = some r ∧
        __percpu_counter_sum (example_kernel 4).nr_cpu_ids (example_kernel 4).cpu_online_mask
          fbc1 (fuel + 1) = some (s, fbc1) ∧
        |r - s| ≤ (32 - 1) * (online_cpus (example_kernel 4).nr_cpu_ids
          (example_kernel 4).cpu_online_mask).length := by
  refine ⟨by decide, by unfold updates_ok; decide, by decide, by decide, ?_⟩
  obtain ⟨fbc1, he, h⟩ := read_within_bound (example_kernel 4) 7 0 [⟨0, 10, 32⟩] 32
    (by decide) (by unfold updates_ok; decide) (by decide) (by decide)
  have hrun : run_updates ((__percpu_counter_init (example_kernel 4) 7 0 true true).1.mem 7)
      [⟨0, 10, 32⟩] = some ⟨some [10, 0, 0, 0], some ⟨0, 0, 0⟩, 0⟩ := by decide
  have hfbc := Option.some.inj (he.symm.trans hrun)
  have hfit : is_s64 (logical_value (example_kernel 4).nr_cpu_ids
      (example_kernel 4).cpu_online_mask fbc1) := by
    rw [hfbc]; decide
  exact ⟨fbc1, he, hfit, h hfit⟩

/-! ## Claim C4 -/

/-- C4: on every initialised counter (both pointers set; any slots, `count`,
`slowcount`, `sequence` and `sum_cnt`) and for every `s64` value `v`,
`percpu_counter_set` succeeds and the exact sum run right after it returns
exactly `v`. -/
theorem set_then_sum (n : Nat) (m : Nat → Bool) (fbc : percpu_counter) (v : Int)
    (pcrw : percpu_counter_rw) (cs : List Int)
    (h1 : fbc.pcrw = some pcrw) (h2 : fbc.counters = some cs) (hv : is_s64 v) :
    ∃ fbc1, percpu_counter_set fbc v = some fbc1 ∧
      ∀ fuel, ∃ fbc2, __percpu_counter_sum n m fbc1 (fuel + 1) = some (v, fbc2) := by
  have hset : percpu_counter_set fbc v = some { fbc with
      counters := some (cs.map (fun _ => 0))
      pcrw := some { pcrw with count := v, slowcount := 0 } } := by
    simp only [percpu_counter_set, h1, h2]
  refine ⟨_, hset, fun fuel => ?_⟩
  rw [sum_spec n m _ fuel { pcrw with count := v, slowcount := 0 } (cs.map (fun _ => 0)) rfl rfl]
  have hz : slot_sum (cs.map (fun _ => (0 : Int))) (online_cpus n m) = 0 :=
    slot_sum_zero _ (fun x hx => by
      obtain ⟨_, _, e⟩ := List.mem_map.1 hx
      exact e.symm) _
  simp only [logical_value, hz, add_zero, wrap_s64_of_is_s64 hv]
  exact ⟨_, rfl⟩

/-- Witness of C4: a counter on four cpus with pending slots, a nonzero
`slowcount` and a sum in flight, set to `42`. -/
theorem set_then_sum_witness :
    (⟨some [3, -7, 0, 31], some ⟨100, 9, 5⟩, 1⟩ : percpu_counter).pcrw = some ⟨100, 9, 5⟩ ∧
    (⟨some [3, -7, 0, 31], some ⟨100, 9, 5⟩, 1⟩ : percpu_counter).counters =
      some [3, -7, 0, 31] ∧
    is_s64 42 ∧
    ∃ fbc1, percpu_counter_set ⟨some [3, -7, 0, 31], some ⟨100, 9, 5⟩, 1⟩ 42 = some fbc1 ∧
      ∀ fuel, ∃ fbc2, __percpu_counter_sum 4 (fun _ => true) fbc1 (fuel + 1) = some (42, fbc2) :=
  ⟨rfl, rfl, by decide,
    set_then_sum 4 (fun _ => true) ⟨some [3, -7, 0, 31], some ⟨100, 9, 5⟩, 1⟩ 42
      ⟨100, 9, 5⟩ [3, -7, 0, 31] rfl rfl (by decide)⟩

/-! ## The drain of a removed cpu -/

theorem counter_live_iff (c : percpu_counter) :
    counter_live c ↔ ∃ p cs, c.pcrw = some p ∧ c.counters = some cs := by
  unfold counter_live
  constructor
  · rintro ⟨hp, hc⟩
    obtain ⟨p, hp⟩ := Option.isSome_iff_exists.1 hp
    obtain ⟨cs, hc⟩ := Option.isSome_iff_exists.1 hc
    exact ⟨p, cs, hp, hc⟩
  · rintro ⟨p, cs, hp, hc⟩
    simp [hp, hc]

theorem drain_entry_live (c : percpu_counter) (cpu : Nat) (p : percpu_counter_rw)
    (cs : List Int) (hp : c.pcrw = some p) (hc : c.counters = some cs) :
    drain_entry c cpu = some
      { c with
        pcrw := some { p with count := wrap_s64 (p.count + cs.getD cpu 0) }
        counters := some (cs.set cpu 0) } := by
  simp only [drain_entry, hp, hc]

theorem getD_set_zero (cs : List Int) (cpu : Nat) : (cs.set cpu 0).getD cpu 0 = 0 := by
  rw [getD_set_slot]
  split_ifs with h
  · rfl
  · have hl : cs.length ≤ cpu := by
      by_contra hc
      exact h ⟨rfl, Nat.lt_of_not_le hc⟩
    rw [List.getD_eq_getElem?_getD, List.getElem?_eq_none hl]
    rfl

theorem drained_live {c : percpu_counter} (cpu : Nat) (h : counter_live c) :
    drain_entry c cpu = some (drained c cpu) ∧ counter_live (drained c cpu) ∧
      drained (drained c cpu) cpu = drained c cpu := by
  obtain ⟨p, cs, hp, hc⟩ := (counter_live_iff c).1 h
  have he := drain_entry_live c cpu p cs hp hc
  have hd : drained c cpu = { c with
      pcrw := some { p with count := wrap_s64 (p.count + cs.getD cpu 0) }
      counters := some (cs.set cpu 0) } := by
    simp [drained, he]
  refine ⟨by rw [he, hd], ?_, ?_⟩
  · rw [hd]; simp [counter_live]
  · rw [hd]
    simp only [drained]
    rw [drain_entry_live _ cpu _ _ rfl rfl]
    simp only [Option.getD_some, getD_set_zero, add_zero, wrap_s64_idem, List.set_set]

theorem drain_loop_spec (cpu : Nat) (l : List Nat) :
    ∀ mem : Nat → percpu_counter, (∀ b ∈ l, counter_live (mem b)) →
    ∃ mem1, drain_loop mem cpu l = some mem1 ∧
      ∀ b, mem1 b = if b ∈ l then drained (mem b) cpu else mem b := by
  induction l with
  | nil =>
    intro mem _
    exact ⟨mem, rfl, fun b => by simp⟩
  | cons b0 rest ih =>
    intro mem hlive
    obtain ⟨he, hl0, hidem⟩ := drained_live cpu (hlive b0 (by simp))
    have hlive1 : ∀ b ∈ rest, counter_live (Function.update mem b0 (drained (mem b0) cpu) b) := by
      intro b hb
      by_cases hbb : b = b0
      · subst hbb; simpa using hl0
      · simpa [Function.update_noteq hbb] using hlive b (by simp [hb])
    obtain ⟨mem1, hrun, hmem1⟩ := ih _ hlive1
    refine ⟨mem1, by simp only [drain_loop, he, hrun], fun b => ?_⟩
    rw [hmem1 b]
    by_cases hbb : b = b0
    · subst hbb
      by_cases hbr : b ∈ rest
      · simp [hbr, hidem]
      · simp [hbr]
    · simp [hbb, Function.update_noteq hbb]

theorem slot_sum_filter (cs : List Int) (q : Nat → Bool) (cpus : List Nat)
    (h : ∀ i ∈ cpus, q i = false → cs.getD i 0 = 0) :
    slot_sum cs (cpus.filter q) = slot_sum cs cpus := by
  induction cpus with
  | nil => rfl
  | cons c rest ih =>
    have ih1 := ih (fun i hi => h i (by simp [hi]))
    by_cases hq : q c = true
    · simp only [slot_sum, List.filter_cons_of_pos hq, List.map_cons, List.sum_cons] at ih1 ⊢
      rw [ih1]
    · have hq0 : q c = false := by simpa using hq
      have hz := h c (by simp) hq0
      simp only [slot_sum, List.filter_cons_of_neg hq, List.map_cons, List.sum_cons] at ih1 ⊢
      rw [ih1, hz, zero_add]

theorem online_cpus_removed (n : Nat) (m : Nat → Bool) (u : Nat) :
    online_cpus n (fun i => if i = u then false else m i) =
      (online_cpus n m).filter (fun i => decide (i ≠ u)) := by
  unfold online_cpus
  rw [List.filter_filter]
  apply List.filter_congr
  intro x _
  by_cases hx : x = u <;> simp [hx]

theorem slot_sum_drained (cs : List Int) (n : Nat) (m : Nat → Bool) (u : Nat)
    (hu : u < n) (hon : m u = true) :
    slot_sum (cs.set u 0) (online_cpus n (fun i => if i = u then false else m i)) =
      slot_sum cs (online_cpus n m) - cs.getD u 0 := by
  rw [online_cpus_removed, slot_sum_filter]
  · by_cases hl : u < cs.length
    · rw [slot_sum_set_mem cs u 0 _ (online_cpus_nodup n m) (mem_online_cpus.2 ⟨hu, hon⟩) hl]
      ring
    · have hl1 : cs.length ≤ u := Nat.le_of_not_lt hl
      have hs : cs.set u 0 = cs := List.set_eq_of_length_le hl1
      have hg : cs.getD u 0 = 0 := by
        rw [List.getD_eq_getElem?_getD, List.getElem?_eq_none hl1]; rfl
      rw [hs, hg, sub_zero]
  · intro i _ hq
    have hi : i = u := by simpa using hq
    subst hi
    exact getD_set_zero cs i

/-! ## The hotplug callback -/

theorem compute_batch_value_mem (K : kernel) : (compute_batch_value K).mem = K.mem := by
  unfold compute_batch_value; rfl

theorem compute_batch_value_registry (K : kernel) :
    (compute_batch_value K).percpu_counters = K.percpu_counters := by
  unfold compute_batch_value; rfl

theorem compute_batch_value_mask (K : kernel) :
    (compute_batch_value K).cpu_online_mask = K.cpu_online_mask := by
  unfold compute_batch_value; rfl

theorem compute_batch_value_nr (K : kernel) :
    (compute_batch_value K).nr_cpu_ids = K.nr_cpu_ids := by
  unfold compute_batch_value; rfl

theorem callback_dead (K : kernel) (action hcpu : Nat) (mem1 : Nat → percpu_counter)
    (hact : action = CPU_DEAD ∨ action = CPU_DEAD_FROZEN)
    (hrun : drain_loop K.mem (hcpu % 2 ^ 32) K.percpu_counters = some mem1) :
    percpu_counter_hotcpu_callback K action hcpu =
      some { compute_batch_value K with mem := mem1 } := by
  have hna : ¬ (action ≠ CPU_DEAD ∧ action ≠ CPU_DEAD_FROZEN) := by
    rcases hact with h | h <;> simp [h]
  unfold percpu_counter_hotcpu_callback
  simp only [if_neg hna, compute_batch_value_mem, compute_batch_value_registry, hrun]

theorem sum_drained (n : Nat) (m : Nat → Bool) (c : percpu_counter) (u : Nat)
    (pcrw : percpu_counter_rw) (cs : List Int)
    (h1 : c.pcrw = some pcrw) (h2 : c.counters = some cs)
    (hu : u < n) (hon : m u = true) (fuel : Nat) :
    ∃ s c0 c1, __percpu_counter_sum n m c (fuel + 1) = some (s, c0) ∧
      __percpu_counter_sum n (fun i => if i = u then false else m i) (drained c u) (fuel + 1) =
        some (s, c1) := by
  have hd : drained c u = { c with
      pcrw := some { pcrw with count := wrap_s64 (pcrw.count + cs.getD u 0) }
      counters := some (cs.set u 0) } := by
    simp [drained, drain_entry_live c u pcrw cs h1 h2]
  have hv : wrap_s64 (logical_value n (fun i => if i = u then false else m i)
        { c with
          pcrw := some { pcrw with count := wrap_s64 (pcrw.count + cs.getD u 0) }
          counters := some (cs.set u 0) }) =
      wrap_s64 (logical_value n m c) := by
    simp only [logical_value, h1, h2, slot_sum_drained cs _ _ u hu hon]
    generalize slot_sum cs (online_cpus n m) = S
    generalize cs.getD u 0 = p
    unfold wrap_s64; omega
  have hs := sum_spec n (fun i => if i = u then false else m i) _ fuel
    { pcrw with count := wrap_s64 (pcrw.count + cs.getD u 0) } (cs.set u 0)
    (show ({ c with
          pcrw := some { pcrw with count := wrap_s64 (pcrw.count + cs.getD u 0) }
          counters := some (cs.set u 0) } : percpu_counter).pcrw = _ from rfl) rfl
  rw [hv, ← hd] at hs
  exact ⟨_, _, _, sum_spec n m c fuel pcrw cs h1 h2, hs⟩

/-! ## Claim C5 -/

/-- C5: for every registered counter and every online cpu `u` with any
pending slot, when `u` has left the online mask and
`percpu_counter_hotcpu_callback` runs for its removal (`CPU_DEAD` or
`CPU_DEAD_FROZEN`), the callback completes, the slot of `u` is zero, and the
exact sum over the remaining online cpus returns the value that it returned
before the removal with `u` still online. -/
theorem drain_preserves_sum (K : kernel) (a u action : Nat) (pcrw : percpu_counter_rw)
    (cs : List Int) (hact : action = CPU_DEAD ∨ action = CPU_DEAD_FROZEN)
    (hreg : a ∈ K.percpu_counters) (hok : registry_ok K)
    (h1 : (K.mem a).pcrw = some pcrw) (h2 : (K.mem a).counters = some cs)
    (hu : u < K.nr_cpu_ids) (hon : K.cpu_online_mask u = true) (hn : K.nr_cpu_ids ≤ 2 ^ 32) :
    ∃ K1, percpu_counter_hotcpu_callback (cpu_removed K u) action u = some K1 ∧
      K1.cpu_online_mask u = false ∧
      (∃ cs1, (K1.mem a).counters = some cs1 ∧ cs1.getD u 0 = 0 ∧ cs1.length = cs.length) ∧
      ∀ fuel, ∃ s c0 c1,
        __percpu_counter_sum K.nr_cpu_ids K.cpu_online_mask (K.mem a) (fuel + 1) = some (s, c0) ∧
        __percpu_counter_sum K1.nr_cpu_ids K1.cpu_online_mask (K1.mem a) (fuel + 1) =
          some (s, c1) := by
  obtain ⟨mem1, hrun, hmem1⟩ := drain_loop_spec u K.percpu_counters K.mem hok
  have hmod : u % 2 ^ 32 = u := Nat.mod_eq_of_lt (by omega)
  have hrun1 : drain_loop (cpu_removed K u).mem (u % 2 ^ 32) (cpu_removed K u).percpu_counters =
      some mem1 := by
    rw [hmod]; exact hrun
  have hd : mem1 a = drained (K.mem a) u := by
    rw [hmem1 a, if_pos hreg]
  have hdc : (drained (K.mem a) u).counters = some (cs.set u 0) := by
    simp [drained, drain_entry_live (K.mem a) u pcrw cs h1 h2]
  refine ⟨_, callback_dead (cpu_removed K u) action u mem1 hact hrun1, ?_, ?_, fun fuel => ?_⟩
  · simp only [compute_batch_value_mask, cpu_removed, if_true]
  · simp only [hd]
    exact ⟨cs.set u 0, hdc, getD_set_zero cs u, by simp⟩
  · simp only [compute_batch_value_mask, compute_batch_value_nr, cpu_removed, hd]
    exact sum_drained K.nr_cpu_ids K.cpu_online_mask (K.mem a) u pcrw cs h1 h2 hu hon fuel

/-- Witness of C5: the registered counter of `example_registered`, whose cpu
`1` holds a pending `5`, at the removal of cpu `1`. -/
theorem drain_preserves_sum_witness :
    (CPU_DEAD = CPU_DEAD ∨ CPU_DEAD = CPU_DEAD_FROZEN) ∧
    7 ∈ example_registered.percpu_counters ∧ registry_ok example_registered ∧
    (example_registered.mem 7).pcrw = some ⟨100, 0, 2⟩ ∧
    (example_registered.mem 7).counters = some [3, 5, 0, -2] ∧
    1 < example_registered.nr_cpu_ids ∧ example_registered.cpu_online_mask 1 = true ∧
    example_registered.nr_cpu_ids ≤ 2 ^ 32 ∧
    ∃ K1, percpu_counter_hotcpu_callback (cpu_removed example_registered 1) CPU_DEAD 1 =
        some K1 ∧
      K1.cpu_online_mask 1 = false ∧
      (∃ cs1, (K1.mem 7).counters = some cs1 ∧ cs1.getD 1 0 = 0 ∧
        cs1.length = ([3, 5, 0, -2] : List Int).length) ∧
      ∀ fuel, ∃ s c0 c1,
        __percpu_counter_sum example_registered.nr_cpu_ids example_registered.cpu_online_mask
          (example_registered.mem 7) (fuel + 1) = some (s, c0) ∧
        __percpu_counter_sum K1.nr_cpu_ids K1.cpu_online_mask (K1.mem 7) (fuel + 1) =
          some (s, c1) :=
  ⟨Or.inl rfl, by decide, by unfold registry_ok; decide, rfl, rfl, by decide, rfl,
    by norm_num [example_registered],
    drain_preserves_sum example_registered 7 1 CPU_DEAD ⟨100, 0, 2⟩ [3, 5, 0, -2] (Or.inl rfl)
      (by decide) (by unfold registry_ok; decide) rfl rfl (by decide) rfl
      (by norm_num [example_registered])⟩

/-! ## Claim C6 -/

/-- C6: for every `s64` initial value a successful `__percpu_counter_init`
returns `0` and leaves the counter with `count` the initial value,
`slowcount`, `sequence` and `sum_cnt` zero and a zero slot for every possible
cpu; the approximate read and the exact sum right after it both return the
initial value. -/
theorem init_state (K : kernel) (a : Nat) (v : Int) (hv : is_s64 v) :
    (__percpu_counter_init K a v true true).2 = 0 ∧
    (__percpu_counter_init K a v true true).1.mem a =
      { counters := some (List.replicate K.nr_cpu_ids 0)
        pcrw := some { count := v, slowcount := 0, sequence := 0 }
        sum_cnt := 0 } ∧
    percpu_counter_read ((__percpu_counter_init K a v true true).1.mem a) = some v ∧
    ∀ fuel, __percpu_counter_sum K.nr_cpu_ids K.cpu_online_mask
        ((__percpu_counter_init K a v true true).1.mem a) (fuel + 1) =
      some (v, (__percpu_counter_init K a v true true).1.mem a) := by
  refine ⟨by simp [init_success], init_mem K a v, by rw [init_mem]; rfl, fun fuel => ?_⟩
  obtain ⟨pcrw, cs, h1, h2, _, _, _, _, hsc⟩ := init_counter_ok K a v hv
  rw [sum_spec_same _ _ _ fuel pcrw cs h1 h2 hsc, init_logical_value, wrap_s64_of_is_s64 hv]

/-- Witness of C6: `init(c, 100)` on four cpus. -/
theorem init_state_witness :
    is_s64 100 ∧
    ((__percpu_counter_init (example_kernel 4) 7 100 true true).2 = 0 ∧
    (__percpu_counter_init (example_kernel 4) 7 100 true true).1.mem 7 =
      { counters := some (List.replicate (example_kernel 4).nr_cpu_ids 0)
        pcrw := some { count := 100, slowcount := 0, sequence := 0 }
        sum_cnt := 0 } ∧
    percpu_counter_read ((__percpu_counter_init (example_kernel 4) 7 100 true true).1.mem 7) =
      some 100 ∧
    ∀ fuel, __percpu_counter_sum (example_kernel 4).nr_cpu_ids (example_kernel 4).cpu_online_mask
        ((__percpu_counter_init (example_kernel 4) 7 100 true true).1.mem 7) (fuel + 1) =
      some (100, (__percpu_counter_init (example_kernel 4) 7 100 true true).1.mem 7)) :=
  ⟨by decide, init_state (example_kernel 4) 7 100 (by decide)⟩

/-! ## Claim C7 -/

/-- C7: `__percpu_counter_init` returns `-ENOMEM` exactly when the allocation
of the shared part or of the per-cpu area fails, and `0` otherwise.  When the
first allocation fails the state is unchanged.  When the second fails the
shared part has been freed again: the numbers of live slab objects and of
live per-cpu areas are those before the call, the registry is unchanged, and
the counter only has its `counters` pointer cleared. -/
theorem init_failure (K : kernel) (a : Nat) (v : Int) (kzalloc_ok alloc_percpu_ok : Bool) :
    ((__percpu_counter_init K a v kzalloc_ok alloc_percpu_ok).2 = -ENOMEM ↔
      (kzalloc_ok = false ∨ alloc_percpu_ok = false)) ∧
    ((__percpu_counter_init K a v kzalloc_ok alloc_percpu_ok).2 = 0 ↔
      (kzalloc_ok = true ∧ alloc_percpu_ok = true)) ∧
    __percpu_counter_init K a v false alloc_percpu_ok = (K, -ENOMEM) ∧
    __percpu_counter_init K a v true false =
      ({ K with mem := Function.update K.mem a { K.mem a with counters := none } }, -ENOMEM) := by
  refine ⟨?_, ?_, ?_, ?_⟩
  · cases kzalloc_ok <;> cases alloc_percpu_ok <;>
      simp [__percpu_counter_init, kzalloc_pcrw, alloc_percpu_gfp, kernel.store, kfree, ENOMEM]
  · cases kzalloc_ok <;> cases alloc_percpu_ok <;>
      simp [__percpu_counter_init, kzalloc_pcrw, alloc_percpu_gfp, kernel.store, kfree, ENOMEM]
  · simp [__percpu_counter_init, kzalloc_pcrw]
  · simp [__percpu_counter_init, kzalloc_pcrw, alloc_percpu_gfp, kernel.store, kfree]

/-! ## Destruction -/

theorem destroy_null (K : kernel) (a : Nat) (h : (K.mem a).counters = none) :
    percpu_counter_destroy K a = some K := by
  simp only [percpu_counter_destroy, h]

theorem destroy_live (K : kernel) (a : Nat) (pcrw : percpu_counter_rw) (cs : List Int)
    (h1 : (K.mem a).pcrw = some pcrw) (h2 : (K.mem a).counters = some cs) :
    percpu_counter_destroy K a =
      some { K with
        mem := Function.update K.mem a { K.mem a with counters := none, pcrw := none }
        percpu_counters := K.percpu_counters.erase a
        kmalloc_live := K.kmalloc_live - 1
        percpu_live := K.percpu_live - 1 } := by
  simp [percpu_counter_destroy, h1, h2, free_percpu, kfree, kernel.store]

/-! ## Claim C8 -/

/-- C8: `percpu_counter_destroy` changes nothing on a counter whose per-cpu
area is already released, so running it twice gives the result of running it
once; on a live counter in a registry without repeated nodes it clears both
pointers and the counter is no longer registered. -/
theorem destroy_idempotent (K : kernel) (a : Nat) :
    ((K.mem a).counters = none → percpu_counter_destroy K a = some K) ∧
    (percpu_counter_destroy K a).bind (fun K1 => percpu_counter_destroy K1 a) =
      percpu_counter_destroy K a ∧
    (∀ pcrw cs, (K.mem a).pcrw = some pcrw → (K.mem a).counters = some cs →
      K.percpu_counters.Nodup →
      ∃ K1, percpu_counter_destroy K a = some K1 ∧
        (K1.mem a).counters = none ∧ (K1.mem a).pcrw = none ∧ a ∉ K1.percpu_counters ∧
        percpu_counter_destroy K1 a = some K1) := by
  refine ⟨destroy_null K a, ?_, ?_⟩
  · cases hc : (K.mem a).counters with
    | none => simp [destroy_null K a hc]
    | some cs =>
      cases hp : (K.mem a).pcrw with
      | none => simp [percpu_counter_destroy, hc, hp]
      | some pcrw =>
        rw [destroy_live K a pcrw cs hp hc]
        simp only [Option.some_bind]
        exact destroy_null _ a (by simp)
  · intro pcrw cs h1 h2 hnd
    refine ⟨_, destroy_live K a pcrw cs h1 h2, by simp, by simp, ?_, destroy_null _ a (by simp)⟩
    exact fun hmem => (List.Nodup.mem_erase_iff hnd).1 hmem |>.1 rfl

/-- Witness of C8: the registered counter of `example_registered` destroyed
once and twice. -/
theorem destroy_idempotent_witness :
    (example_registered.mem 7).pcrw = some ⟨100, 0, 2⟩ ∧
    (example_registered.mem 7).counters = some [3, 5, 0, -2] ∧
    example_registered.percpu_counters.Nodup ∧
    ((example_kernel 4).mem 7).counters = none ∧
    percpu_counter_destroy (example_kernel 4) 7 = some (example_kernel 4) ∧
    ∃ K1, percpu_counter_destroy example_registered 7 = some K1 ∧
      (K1.mem 7).counters = none ∧ (K1.mem 7).pcrw = none ∧ 7 ∉ K1.percpu_counters ∧
      percpu_counter_destroy K1 7 = some K1 :=
  ⟨rfl, rfl, by decide, rfl, (destroy_idempotent (example_kernel 4) 7).1 rfl,
    (destroy_idempotent example_registered 7).2.2 ⟨100, 0, 2⟩ [3, 5, 0, -2] rfl rfl
      (by decide)⟩

/-! ## Claim C9 -/

/-- C9: take a kernel state `K0` whose storage at `a` was never used (any
content, not registered by the calls below), initialise the counter there
with any value `v1` and let it reach any live state `s` (any slots, totals,
`sequence` and `sum_cnt`).  Then `percpu_counter_destroy` succeeds, and a
successful `__percpu_counter_init` with the value `v` after it gives exactly
the result, return code and whole kernel state (counter, registry, numbers of
live objects), of that init on the never-used `K0`: no field of the result
depends on `s` or `v1`.  The state after destroy has the registry and the
numbers of live objects of `K0`, and the counter left by the init has
`count = v` and zero `slowcount`, `sequence`, `sum_cnt` and slots. -/
theorem destroy_then_init (K0 : kernel) (a : Nat) (v1 v : Int) (s : percpu_counter)
    (pcrw : percpu_counter_rw) (cs : List Int)
    (h1 : s.pcrw = some pcrw) (h2 : s.counters = some cs) :
    ∃ K1, percpu_counter_destroy ((__percpu_counter_init K0 a v1 true true).1.store a s) a =
        some K1 ∧
      K1.percpu_counters = K0.percpu_counters ∧
      K1.kmalloc_live = K0.kmalloc_live ∧ K1.percpu_live = K0.percpu_live ∧
      (K1.mem a).counters = none ∧ (K1.mem a).pcrw = none ∧
      __percpu_counter_init K1 a v true true = __percpu_counter_init K0 a v true true ∧
      (__percpu_counter_init K1 a v true true).2 = 0 ∧
      (__percpu_counter_init K1 a v true true).1.mem a =
        { counters := some (List.replicate K0.nr_cpu_ids 0)
          pcrw := some { count := v, slowcount := 0, sequence := 0 }
          sum_cnt := 0 } := by
  have hp : (((__percpu_counter_init K0 a v1 true true).1.store a s).mem a).pcrw = some pcrw := by
    simp [kernel.store, h1]
  have hc : (((__percpu_counter_init K0 a v1 true true).1.store a s).mem a).counters =
      some cs := by
    simp [kernel.store, h2]
  refine ⟨_, destroy_live _ a pcrw cs hp hc, ?_, ?_, ?_, by simp, by simp, ?_,
    by simp [init_success], ?_⟩
  · simp [init_success, kernel.store]
  · simp [init_success, kernel.store]
  · simp [init_success, kernel.store]
  · simp [init_success, kernel.store]
  · rw [init_mem]
    simp [init_success, kernel.store]

/-- Witness of C9: on four cpus, a counter initialised with `100`, used until
it holds pending slots, a `sequence` of `2` and a sum in flight, then
destroyed and initialised again with `42`. -/
theorem destroy_then_init_witness :
    (⟨some [3, 5, 0, -2], some ⟨100, 7, 2⟩, 1⟩ : percpu_counter).pcrw = some ⟨100, 7, 2⟩ ∧
    (⟨some [3, 5, 0, -2], some ⟨100, 7, 2⟩, 1⟩ : percpu_counter).counters =
      some [3, 5, 0, -2] ∧
    ∃ K1, percpu_counter_destroy ((__percpu_counter_init (example_kernel 4) 7 100 true true).1.store
        7 ⟨some [3, 5, 0, -2], some ⟨100, 7, 2⟩, 1⟩) 7 = some K1 ∧
      K1.percpu_counters = (example_kernel 4).percpu_counters ∧
      K1.kmalloc_live = (example_kernel 4).kmalloc_live ∧
      K1.percpu_live = (example_kernel 4).percpu_live ∧
      (K1.mem 7).counters = none ∧ (K1.mem 7).pcrw = none ∧
      __percpu_counter_init K1 7 42 true true =
        __percpu_counter_init (example_kernel 4) 7 42 true true ∧
      (__percpu_counter_init K1 7 42 true true).2 = 0 ∧
      (__percpu_counter_init K1 7 42 true true).1.mem 7 =
        { counters := some (List.replicate (example_kernel 4).nr_cpu_ids 0)
          pcrw := some { count := 42, slowcount := 0, sequence := 0 }
          sum_cnt := 0 } :=
  ⟨rfl, rfl,
    destroy_then_init (example_kernel 4) 7 100 42 ⟨some [3, 5, 0, -2], some ⟨100, 7, 2⟩, 1⟩
      ⟨100, 7, 2⟩ [3, 5, 0, -2] rfl rfl⟩

/-! ## Claim C10 -/

theorem compute_batch_value_batch (K : kernel) :
    (compute_batch_value K).percpu_counter_batch =
      max 32 (wrap_s32 (wrap_s32 (num_online_cpus K.nr_cpu_ids K.cpu_online_mask) * 2)) := by
  unfold compute_batch_value; rfl

theorem callback_completes (K : kernel) (action hcpu : Nat) (hok : registry_ok K) :
    ∃ K1, percpu_counter_hotcpu_callback K action hcpu = some K1 ∧
      K1.percpu_counter_batch = (compute_batch_value K).percpu_counter_batch := by
  by_cases hact : action = CPU_DEAD ∨ action = CPU_DEAD_FROZEN
  · obtain ⟨mem1, hrun, _⟩ := drain_loop_spec (hcpu % 2 ^ 32) K.percpu_counters K.mem hok
    exact ⟨_, callback_dead K action hcpu mem1 hact hrun, rfl⟩
  · have hna : action ≠ CPU_DEAD ∧ action ≠ CPU_DEAD_FROZEN := by
      constructor
      · exact fun h => hact (Or.inl h)
      · exact fun h => hact (Or.inr h)
    refine ⟨compute_batch_value K, ?_, rfl⟩
    unfold percpu_counter_hotcpu_callback
    simp only [if_pos hna]

/-- C10: while twice the number of online cpus fits an `int`, the batch that
`compute_batch_value` stores is `max(32, 2 * n)` for `n` online cpus, hence
at least `32`; and `percpu_counter_hotcpu_callback` completes and leaves that
batch for every action, the addition of a cpu as well as its removal. -/
theorem batch_value (K : kernel) (action hcpu : Nat) (hok : registry_ok K)
    (hn : 2 * ((online_cpus K.nr_cpu_ids K.cpu_online_mask).length : Int) ≤ INT_MAX) :
    (compute_batch_value K).percpu_counter_batch =
      max 32 (2 * ((online_cpus K.nr_cpu_ids K.cpu_online_mask).length : Int)) ∧
    32 ≤ (compute_batch_value K).percpu_counter_batch ∧
    ∃ K1, percpu_counter_hotcpu_callback K action hcpu = some K1 ∧
      K1.percpu_counter_batch =
        max 32 (2 * ((online_cpus K.nr_cpu_ids K.cpu_online_mask).length : Int)) := by
  have hb : (compute_batch_value K).percpu_counter_batch =
      max 32 (2 * ((online_cpus K.nr_cpu_ids K.cpu_online_mask).length : Int)) := by
    have key : wrap_s32 (wrap_s32 (num_online_cpus K.nr_cpu_ids K.cpu_online_mask) * 2) =
        2 * ((online_cpus K.nr_cpu_ids K.cpu_online_mask).length : Int) := by
      have h0 : (0 : Int) ≤ ((online_cpus K.nr_cpu_ids K.cpu_online_mask).length : Int) :=
        Int.ofNat_nonneg _
      unfold num_online_cpus
      generalize ((online_cpus K.nr_cpu_ids K.cpu_online_mask).length : Int) = n at hn h0 ⊢
      unfold INT_MAX at hn
      unfold wrap_s32 wrap_u32
      omega
    rw [compute_batch_value_batch, key]
  refine ⟨hb, by rw [hb]; exact le_max_left _ _, ?_⟩
  obtain ⟨K1, he, hk⟩ := callback_completes K action hcpu hok
  exact ⟨K1, he, by rw [hk, hb]⟩

/-- Witness of C10: four online cpus, at the addition of a cpu. -/
theorem batch_value_witness :
    registry_ok example_registered ∧
    2 * ((online_cpus example_registered.nr_cpu_ids
      example_registered.cpu_online_mask).length : Int) ≤ INT_MAX ∧
    (compute_batch_value example_registered).percpu_counter_batch =
      max 32 (2 * ((online_cpus example_registered.nr_cpu_ids
        example_registered.cpu_online_mask).length : Int)) ∧
    32 ≤ (compute_batch_value example_registered).percpu_counter_batch ∧
    ∃ K1, percpu_counter_hotcpu_callback example_registered CPU_ONLINE 4 = some K1 ∧
      K1.percpu_counter_batch =
        max 32 (2 * ((online_cpus example_registered.nr_cpu_ids
          example_registered.cpu_online_mask).length : Int)) :=
  ⟨by unfold registry_ok; decide, by decide,
    batch_value example_registered CPU_ONLINE 4 (by unfold registry_ok; decide) (by decide)⟩

/-! ## The steps compose to the functions -/

theorem sum_phases (n : Nat) (m : Nat → Bool) (fbc : percpu_counter) (fuel : Nat) :
    __percpu_counter_sum n m fbc fuel =
      match sum_pass n m (sum_begin fbc) fuel with
      | none => none
      | some ret =>
        match sum_finish (sum_end (sum_begin fbc)) ret with
        | none => none
        | some v => some (v, sum_end (sum_begin fbc)) := by
  unfold __percpu_counter_sum sum_pass sum_finish sum_end sum_begin
  cases fbc.pcrw with
  | none => rfl
  | some pcrw =>
    cases fbc.counters with
    | none => rfl
    | some cs =>
      cases sum_retry pcrw cs (online_cpus n m) fuel <;> rfl

theorem add_phases (fbc : percpu_counter) (cpu : Nat) (amount batch : Int) :
    __percpu_counter_add fbc cpu amount batch =
      if add_route fbc = true then add_slow fbc amount else add_local fbc cpu amount batch := by
  unfold __percpu_counter_add add_route add_slow add_local flush_test
  cases fbc.pcrw with
  | none => simp
  | some pcrw =>
    by_cases h0 : fbc.sum_cnt = 0
    · cases fbc.counters with
      | none => simp [h0]
      | some cs => simp [h0]
    · simp [h0]

/-! ## Updates while a sum is in flight -/

theorem add_slow_spec (fbc : percpu_counter) (cpu : Nat) (amount batch : Int)
    (pcrw : percpu_counter_rw) (h1 : fbc.pcrw = some pcrw) (hs : fbc.sum_cnt ≠ 0) :
    __percpu_counter_add fbc cpu amount batch =
      some { fbc with
        pcrw := some { pcrw with slowcount := wrap_s64 (pcrw.slowcount + amount) } } := by
  simp only [__percpu_counter_add, h1, ne_eq, hs, not_false_eq_true, if_true]

theorem run_updates_slow (us : List update) :
    ∀ (fbc : percpu_counter) (pcrw : percpu_counter_rw), fbc.pcrw = some pcrw →
      fbc.sum_cnt ≠ 0 → is_s64 pcrw.slowcount →
    ∃ sl, run_updates fbc us =
        some { fbc with pcrw := some { pcrw with slowcount := sl } } ∧
      is_s64 sl ∧
      wrap_s64 sl = wrap_s64 (pcrw.slowcount + (us.map (fun u => u.amount)).sum) := by
  induction us with
  | nil =>
    intro fbc pcrw h1 _ hsl
    refine ⟨pcrw.slowcount, ?_, hsl, by simp⟩
    simp only [run_updates]
    cases fbc
    simp only at h1
    subst h1
    rfl
  | cons u rest ih =>
    intro fbc pcrw h1 hs _
    obtain ⟨sl, he, hsl, hw⟩ := ih
      { fbc with pcrw := some { pcrw with slowcount := wrap_s64 (pcrw.slowcount + u.amount) } }
      { pcrw with slowcount := wrap_s64 (pcrw.slowcount + u.amount) } rfl hs
      (is_s64_wrap_s64 _)
    refine ⟨sl, ?_, hsl, ?_⟩
    · simp only [run_updates, add_slow_spec fbc u.cpu u.amount u.batch pcrw h1 hs, he]
    · rw [hw, wrap_s64_wrap_add]
      congr 1
      simp only [List.map_cons, List.sum_cons]
      ring

/-! ## Claim C11 -/

/-- Counterexample of C11 as stated: two cpus, `count = 100`, no pending
slot.  An update by `1` on cpu `0` passes its test of `sum_cnt` (zero) and is
still before its `preempt_disable()` block when the sum increments `sum_cnt`
and walks the slots (`ret = 100`); the block then adds `1` to the slot of cpu
`0`; a later update by `2` on cpu `1` finds `sum_cnt` set and adds `2` to
`slowcount`; the sum decrements `sum_cnt`, adds `slowcount` and returns
`102`.  The logical value is `100`, then `101`, then `103`: never `102`. -/
theorem sum_snapshot_counterexample :
    add_route ⟨some [0, 0], some ⟨100, 0, 0⟩, 0⟩ = false ∧
    sum_begin ⟨some [0, 0], some ⟨100, 0, 0⟩, 0⟩ = ⟨some [0, 0], some ⟨100, 0, 0⟩, 1⟩ ∧
    sum_pass 2 (fun _ => true) ⟨some [0, 0], some ⟨100, 0, 0⟩, 1⟩ 1 = some 100 ∧
    add_local ⟨some [0, 0], some ⟨100, 0, 0⟩, 1⟩ 0 1 32 =
      some ⟨some [1, 0], some ⟨100, 0, 0⟩, 1⟩ ∧
    add_route ⟨some [1, 0], some ⟨100, 0, 0⟩, 1⟩ = true ∧
    add_slow ⟨some [1, 0], some ⟨100, 0, 0⟩, 1⟩ 2 = some ⟨some [1, 0], some ⟨100, 2, 0⟩, 1⟩ ∧
    sum_end ⟨some [1, 0], some ⟨100, 2, 0⟩, 1⟩ = ⟨some [1, 0], some ⟨100, 2, 0⟩, 0⟩ ∧
    sum_finish ⟨some [1, 0], some ⟨100, 2, 0⟩, 0⟩ 100 = some 102 ∧
    logical_value 2 (fun _ => true) ⟨some [0, 0], some ⟨100, 0, 0⟩, 0⟩ = 100 ∧
    logical_value 2 (fun _ => true) ⟨some [0, 0], some ⟨100, 0, 0⟩, 1⟩ = 100 ∧
    logical_value 2 (fun _ => true) ⟨some [1, 0], some ⟨100, 0, 0⟩, 1⟩ = 101 ∧
    logical_value 2 (fun _ => true) ⟨some [1, 0], some ⟨100, 2, 0⟩, 1⟩ = 103 ∧
    logical_value 2 (fun _ => true) ⟨some [1, 0], some ⟨100, 2, 0⟩, 0⟩ = 103 := by
  decide

/-- C11 (amended): when no other sum is in flight and every update that
overlaps the sum runs as a whole between two steps of the sum (`us1` between
the increment of `sum_cnt` and the walk, `us2` between the walk and the
decrement, `us3` between the decrement and the read of `slowcount`), all the
steps complete and the value returned is the logical value of the counter at
the instant of the decrement, in 64-bit signed arithmetic. -/
theorem sum_snapshot_atomic_updates (n : Nat) (m : Nat → Bool) (fbc : percpu_counter)
    (us1 us2 us3 : List update) (hok : counter_ok n fbc) (h0 : fbc.sum_cnt = 0)
    (hus3 : updates_ok n m us3) :
    ∃ s2 ret s3 s5, run_updates (sum_begin fbc) us1 = some s2 ∧
      (∀ fuel, sum_pass n m s2 (fuel + 1) = some ret) ∧
      run_updates s2 us2 = some s3 ∧
      run_updates (sum_end s3) us3 = some s5 ∧
      sum_finish s5 ret = some (wrap_s64 (logical_value n m (sum_end s3))) := by
  obtain ⟨pcrw, cs, h1, h2, hlen, hs32, hc64, hsl64, _⟩ := hok
  have hne : (sum_begin fbc).sum_cnt ≠ 0 := by
    simp only [sum_begin, h0]; decide
  obtain ⟨sl1, he1, hsl1, _⟩ := run_updates_slow us1 (sum_begin fbc) pcrw h1 hne hsl64
  obtain ⟨sl2, he2, hsl2, _⟩ := run_updates_slow us2
    { sum_begin fbc with pcrw := some { pcrw with slowcount := sl1 } }
    { pcrw with slowcount := sl1 } rfl hne hsl1
  have hok4 : counter_ok n (sum_end { sum_begin fbc with
      pcrw := some { pcrw with slowcount := sl2 } }) :=
    ⟨{ pcrw with slowcount := sl2 }, cs, rfl, h2, hlen, hs32, hc64, hsl2, is_s32_wrap_s32 _⟩
  have h04 : (sum_end { sum_begin fbc with
      pcrw := some { pcrw with slowcount := sl2 } }).sum_cnt = 0 := by
    simp only [sum_end, sum_begin, h0]; decide
  obtain ⟨s5, he5, hok5, _, _, hslow5, _⟩ := run_updates_spec n m us3 _ hok4 h04 hus3
  obtain ⟨p5, cs5, hp5, _⟩ := hok5
  refine ⟨_, sum_walk pcrw cs (online_cpus n m), _, s5, he1, ?_, he2, he5, ?_⟩
  · intro fuel
    simp only [sum_pass, sum_begin, h2, sum_retry_succ]
    rfl
  · have hs5 : p5.slowcount = sl2 := by
      simpa [slowcount_of, hp5, sum_end, sum_begin] using hslow5
    simp only [sum_finish, hp5, hs5, logical_value, sum_end, sum_begin, h2]
    rw [← wrap_s64_wrap_add, sum_walk, sum_walk_congr, wrap_s64_wrap_add]
    congr 2
    ring

/-- Witness of C11 (amended): four cpus, an update by `2` on cpu `1` during
the sum and an update by `1` on cpu `0` after its decrement. -/
theorem sum_snapshot_atomic_updates_witness :
    counter_ok 4 ⟨some [3, 5, 0, -2], some ⟨100, 0, 2⟩, 0⟩ ∧
    (⟨some [3, 5, 0, -2], some ⟨100, 0, 2⟩, 0⟩ : percpu_counter).sum_cnt = 0 ∧
    updates_ok 4 (fun _ => true) [⟨0, 1, 32⟩] ∧
    ∃ s2 ret s3 s5,
      run_updates (sum_begin ⟨some [3, 5, 0, -2], some ⟨100, 0, 2⟩, 0⟩) [⟨1, 2, 32⟩] = some s2 ∧
      (∀ fuel, sum_pass 4 (fun _ => true) s2 (fuel + 1) = some ret) ∧
      run_updates s2 [] = some s3 ∧
      run_updates (sum_end s3) [⟨0, 1, 32⟩] = some s5 ∧
      sum_finish s5 ret = some (wrap_s64 (logical_value 4 (fun _ => true) (sum_end s3))) :=
  ⟨⟨⟨100, 0, 2⟩, [3, 5, 0, -2], rfl, rfl, rfl, by decide, by decide, by decide, by decide⟩,
    rfl, by unfold updates_ok; decide,
    sum_snapshot_atomic_updates 4 (fun _ => true) ⟨some [3, 5, 0, -2], some ⟨100, 0, 2⟩, 0⟩
      [⟨1, 2, 32⟩] [] [⟨0, 1, 32⟩]
      ⟨⟨100, 0, 2⟩, [3, 5, 0, -2], rfl, rfl, rfl, by decide, by decide, by decide, by decide⟩
      rfl (by unfold updates_ok; decide)⟩

/-! ## Claim C12 -/

theorem flush_cond_iff_abs (c batch : Int) (hb : is_s32 batch) :
    (c ≥ batch ∨ c ≤ wrap_s32 (-batch)) ↔ |c| ≥ batch := by
  unfold is_s32 INT_MIN INT_MAX at hb
  unfold wrap_s32
  rcases abs_cases c with ⟨h, _⟩ | ⟨h, _⟩ <;> rw [h] <;> constructor <;> intro hh <;> omega

theorem abs_wrap_ge_iff (p amount batch : Int) (hp : is_s32 p) (ha : is_s64 amount)
    (hb : is_s32 batch) : |wrap_s64 (p + amount)| ≥ batch ↔ |p + amount| ≥ batch := by
  unfold is_s32 INT_MIN INT_MAX at hp hb
  unfold is_s64 S64_MIN S64_MAX at ha
  unfold wrap_s64
  rcases abs_cases (p + amount) with ⟨h, _⟩ | ⟨h, _⟩ <;>
    rcases abs_cases ((p + amount + 2 ^ 63) % 2 ^ 64 - 2 ^ 63) with ⟨h2, _⟩ | ⟨h2, _⟩ <;>
    rw [h, h2] <;> constructor <;> intro hh <;> omega

/-- C12: with no sum in flight, `__percpu_counter_add` on cpu `u` computes
`newLocal = accumulators[u] + delta` in `s64`.  If `|newLocal| ≥ batch` it
adds `newLocal` to `count` (in `s64`), increments `sequence` (as an
`unsigned int`) and leaves the slot of `u` at `0`; otherwise it stores
`newLocal` in the slot of `u` and leaves `count` and `sequence` unchanged.
In both cases `slowcount`, `sum_cnt` and the slots of the other cpus are
unchanged.  The test gives the same answer on the exact integer
`accumulators[u] + delta`. -/
theorem update_local (fbc : percpu_counter) (cpu : Nat) (amount batch : Int)
    (pcrw : percpu_counter_rw) (cs : List Int)
    (h1 : fbc.pcrw = some pcrw) (h2 : fbc.counters = some cs) (h0 : fbc.sum_cnt = 0)
    (hcpu : cpu < cs.length) (hp : is_s32 (cs.getD cpu 0)) (ha : is_s64 amount)
    (hb : is_s32 batch) :
    ∃ fbc1 p1 cs1, __percpu_counter_add fbc cpu amount batch = some fbc1 ∧
      fbc1.pcrw = some p1 ∧ fbc1.counters = some cs1 ∧
      (|wrap_s64 (cs.getD cpu 0 + amount)| ≥ batch ↔ |cs.getD cpu 0 + amount| ≥ batch) ∧
      (|wrap_s64 (cs.getD cpu 0 + amount)| ≥ batch →
        p1.count = wrap_s64 (pcrw.count + wrap_s64 (cs.getD cpu 0 + amount)) ∧
        p1.sequence = (pcrw.sequence + 1) % 2 ^ 32 ∧ cs1.getD cpu 0 = 0) ∧
      (¬ |wrap_s64 (cs.getD cpu 0 + amount)| ≥ batch →
        p1.count = pcrw.count ∧ p1.sequence = pcrw.sequence ∧
        cs1.getD cpu 0 = wrap_s64 (cs.getD cpu 0 + amount)) ∧
      p1.slowcount = pcrw.slowcount ∧ fbc1.sum_cnt = fbc.sum_cnt ∧
      cs1.length = cs.length ∧ ∀ i, i ≠ cpu → cs1.getD i 0 = cs.getD i 0 := by
  have hiff := flush_cond_iff_abs (wrap_s64 (cs.getD cpu 0 + amount)) batch hb
  have hex := abs_wrap_ge_iff (cs.getD cpu 0) amount batch hp ha hb
  rcases add_local_spec fbc cpu amount batch pcrw cs h1 h2 h0 hb with ⟨he, hc⟩ | ⟨he, hpos, habs⟩
  · have hge := hiff.1 hc
    refine ⟨_, _, _, he, rfl, rfl, hex, fun _ => ⟨rfl, rfl, getD_set_zero cs cpu⟩,
      fun hn => absurd hge hn, rfl, rfl, by simp, fun i hi => ?_⟩
    rw [getD_set_slot]; simp [hi]
  · have hlt : ¬ |wrap_s64 (cs.getD cpu 0 + amount)| ≥ batch := by
      intro hge; omega
    refine ⟨_, _, _, he, h1, rfl, hex, fun hge => absurd hge hlt, fun _ => ⟨rfl, rfl, ?_⟩,
      rfl, rfl, by simp, fun i hi => ?_⟩
    · rw [getD_set_slot]; simp [hcpu]
    · rw [getD_set_slot]; simp [hi]

/-- Witness of C12: scenario 3 of the specification, `count = 100` and an
update by `-50` with batch `32` on cpu `0`. -/
theorem update_local_witness :
    (⟨some [0, 0], some ⟨100, 0, 0⟩, 0⟩ : percpu_counter).pcrw = some ⟨100, 0, 0⟩ ∧
    (⟨some [0, 0], some ⟨100, 0, 0⟩, 0⟩ : percpu_counter).counters = some [0, 0] ∧
    (⟨some [0, 0], some ⟨100, 0, 0⟩, 0⟩ : percpu_counter).sum_cnt = 0 ∧
    0 < ([0, 0] : List Int).length ∧ is_s32 (([0, 0] : List Int).getD 0 0) ∧
    is_s64 (-50) ∧ is_s32 32 ∧
    ∃ fbc1 p1 cs1,
      __percpu_counter_add ⟨some [0, 0], some ⟨100, 0, 0⟩, 0⟩ 0 (-50) 32 = some fbc1 ∧
      fbc1.pcrw = some p1 ∧ fbc1.counters = some cs1 ∧
      (|wrap_s64 (([0, 0] : List Int).getD 0 0 + -50)| ≥ 32 ↔
        |([0, 0] : List Int).getD 0 0 + -50| ≥ 32) ∧
      (|wrap_s64 (([0, 0] : List Int).getD 0 0 + -50)| ≥ 32 →
        p1.count = wrap_s64 ((⟨100, 0, 0⟩ : percpu_counter_rw).count +
          wrap_s64 (([0, 0] : List Int).getD 0 0 + -50)) ∧
        p1.sequence = ((⟨100, 0, 0⟩ : percpu_counter_rw).sequence + 1) % 2 ^ 32 ∧
        cs1.getD 0 0 = 0) ∧
      (¬ |wrap_s64 (([0, 0] : List Int).getD 0 0 + -50)| ≥ 32 →
        p1.count = (⟨100, 0, 0⟩ : percpu_counter_rw).count ∧
        p1.sequence = (⟨100, 0, 0⟩ : percpu_counter_rw).sequence ∧
        cs1.getD 0 0 = wrap_s64 (([0, 0] : List Int).getD 0 0 + -50)) ∧
      p1.slowcount = (⟨100, 0, 0⟩ : percpu_counter_rw).slowcount ∧
      fbc1.sum_cnt = (⟨some [0, 0], some ⟨100, 0, 0⟩, 0⟩ : percpu_counter).sum_cnt ∧
      cs1.length = ([0, 0] : List Int).length ∧
      ∀ i, i ≠ 0 → cs1.getD i 0 = ([0, 0] : List Int).getD i 0 :=
  ⟨rfl, rfl, rfl, by decide, by decide, by decide, by decide,
    update_local ⟨some [0, 0], some ⟨100, 0, 0⟩, 0⟩ 0 (-50) 32 ⟨100, 0, 0⟩ [0, 0] rfl rfl rfl
      (by decide) (by decide) (by decide) (by decide)⟩

/-! ## Claim C13 -/

/-- C13: with a sum in flight (`sum_cnt > 0`), `__percpu_counter_add` adds the
amount to `slowcount` in `s64` and changes nothing else, whatever the cpu and
the batch; the logical value rises by the amount in 64-bit signed
arithmetic. -/
theorem update_fallback (fbc : percpu_counter) (cpu : Nat) (amount batch : Int)
    (pcrw : percpu_counter_rw) (cs : List Int)
    (h1 : fbc.pcrw = some pcrw) (h2 : fbc.counters = some cs) (hs : 0 < fbc.sum_cnt) :
    __percpu_counter_add fbc cpu amount batch =
      some { counters := some cs
             pcrw := some { count := pcrw.count
                            slowcount := wrap_s64 (pcrw.slowcount + amount)
                            sequence := pcrw.sequence }
             sum_cnt := fbc.sum_cnt } ∧
    ∀ n m fbc1, __percpu_counter_add fbc cpu amount batch = some fbc1 →
      wrap_s64 (logical_value n m fbc1) = wrap_s64 (logical_value n m fbc + amount) := by
  have he := add_slow_spec fbc cpu amount batch pcrw h1 (ne_of_gt hs)
  constructor
  · rw [he, h2]
  · intro n m fbc1 h
    rw [he] at h
    simp only [Option.some.injEq] at h
    subst h
    simp only [logical_value, h1, h2]
    generalize slot_sum cs (online_cpus n m) = S
    unfold wrap_s64; omega

/-- Witness of C13: an update by `7` while one sum is in flight. -/
theorem update_fallback_witness :
    (⟨some [3, 5], some ⟨100, 0, 2⟩, 1⟩ : percpu_counter).pcrw = some ⟨100, 0, 2⟩ ∧
    (⟨some [3, 5], some ⟨100, 0, 2⟩, 1⟩ : percpu_counter).counters = some [3, 5] ∧
    0 < (⟨some [3, 5], some ⟨100, 0, 2⟩, 1⟩ : percpu_counter).sum_cnt ∧
    __percpu_counter_add ⟨some [3, 5], some ⟨100, 0, 2⟩, 1⟩ 0 7 32 =
      some { counters := some [3, 5]
             pcrw := some { count := (⟨100, 0, 2⟩ : percpu_counter_rw).count
                            slowcount := wrap_s64 ((⟨100, 0, 2⟩ : percpu_counter_rw).slowcount + 7)
                            sequence := (⟨100, 0, 2⟩ : percpu_counter_rw).sequence }
             sum_cnt := (⟨some [3, 5], some ⟨100, 0, 2⟩, 1⟩ : percpu_counter).sum_cnt } :=
  ⟨rfl, rfl, by decide,
    (update_fallback ⟨some [3, 5], some ⟨100, 0, 2⟩, 1⟩ 0 7 32 ⟨100, 0, 2⟩ [3, 5] rfl rfl
      (by decide)).1⟩

/-! ## Claim C15 -/

/-- Counterexample of C15 as stated, in the three ways it fails.  (1) A
negative batch: `count = 0`, one cpu holding `10`, `rhs = 5`, `batch = -1`;
`|0 - 5| > -1 * 1`, yet the product is `2^32 - 1` as an `unsigned int`, the
precise path is taken and the result is `1`, not the sign `-1` of
`read - rhs`.  (2) The product wraps: three cpus, `batch = 2^31 - 1`,
`rhs = 2^31`; `|0 - 2^31|` is not above `batch * 3`, yet the fast path is
taken and the result is `-1` while the sum is `2^32 - 4`.  (3) The difference
wraps: `count = S64_MAX`, `rhs = -1`; `|count - rhs| > 32 * 1`, yet the
precise path is taken and the result is `-1`, not the sign `1` of
`read - rhs`. -/
theorem compare_paths_counterexample :
    (|(0 : Int) - 5| > -1 * (online_cpus 1 (fun _ => true)).length ∧
      percpu_counter_read ⟨some [10], some ⟨0, 0, 0⟩, 0⟩ = some 0 ∧
      __percpu_counter_compare 1 (fun _ => true) ⟨some [10], some ⟨0, 0, 0⟩, 0⟩ 5 (-1) 1 =
        some (1, ⟨some [10], some ⟨0, 0, 0⟩, 0⟩) ∧
      sign (0 - 5) = -1) ∧
    (¬ (|(0 : Int) - 2147483648| >
        2147483647 * (online_cpus 3 (fun _ => true)).length) ∧
      __percpu_counter_sum 3 (fun _ => true)
        ⟨some [2147483646, 2147483646, 0], some ⟨0, 0, 0⟩, 0⟩ 1 =
        some (4294967292, ⟨some [2147483646, 2147483646, 0], some ⟨0, 0, 0⟩, 0⟩) ∧
      __percpu_counter_compare 3 (fun _ => true)
        ⟨some [2147483646, 2147483646, 0], some ⟨0, 0, 0⟩, 0⟩ 2147483648 2147483647 1 =
        some (-1, ⟨some [2147483646, 2147483646, 0], some ⟨0, 0, 0⟩, 0⟩) ∧
      sign (4294967292 - 2147483648) = 1) ∧
    (|S64_MAX - (-1)| > 32 * (online_cpus 1 (fun _ => true)).length ∧
      percpu_counter_read ⟨some [1], some ⟨S64_MAX, 0, 0⟩, 0⟩ = some S64_MAX ∧
      __percpu_counter_compare 1 (fun _ => true) ⟨some [1], some ⟨S64_MAX, 0, 0⟩, 0⟩ (-1) 32 1 =
        some (-1, ⟨some [1], some ⟨S64_MAX, 0, 0⟩, 0⟩) ∧
      sign (S64_MAX - (-1)) = 1) := by
  decide

theorem threshold_exact (B : Int) (len : Nat) (hB : 0 ≤ B) (hBs : is_s32 B)
    (hprod : B * len < 2 ^ 32) :
    wrap_u32 (wrap_u32 B * wrap_u32 (len : Int)) = B * len := by
  have h1 : wrap_u32 B = B := by
    unfold is_s32 INT_MIN INT_MAX at hBs
    unfold wrap_u32; omega
  rw [h1]
  by_cases hz : B = 0
  · subst hz
    simp [wrap_u32]
  · have hlen0 : (0 : Int) ≤ len := Int.ofNat_nonneg len
    have hpos : 1 ≤ B := by omega
    have hlen : (len : Int) < 2 ^ 32 := by nlinarith
    have h2 : wrap_u32 (len : Int) = len := by unfold wrap_u32; omega
    rw [h2]
    exact Int.emod_eq_of_lt (by positivity) hprod

theorem abs_exact (x : Int) (hx : |x| < 2 ^ 63) : abs (wrap_s64 x) = |x| := by
  unfold abs wrap_s64
  rcases abs_cases x with ⟨h, _⟩ | ⟨h, _⟩ <;> rw [h] at hx ⊢ <;> split_ifs <;> omega

/-- C15 (amended): for every initialised counter, every `rhs` with
`|read - rhs| < 2^63` and every non-negative batch whose product with the
number of online cpus is below `2^32`: when `|read - rhs|` exceeds that
product, `__percpu_counter_compare` returns the sign of `read - rhs`, which
is not `0`, without running the sum (it succeeds with no fuel for the sum
loop) and leaves the counter unchanged; in every other case it returns the
sign of `sum - rhs`. -/
theorem compare_paths (n : Nat) (m : Nat → Bool) (fbc : percpu_counter) (rhs batch : Int)
    (pcrw : percpu_counter_rw) (cs : List Int)
    (h1 : fbc.pcrw = some pcrw) (h2 : fbc.counters = some cs) (hsc : is_s32 fbc.sum_cnt)
    (hb : 0 ≤ batch) (hbs : is_s32 batch)
    (hprod : batch * (online_cpus n m).length < 2 ^ 32)
    (hd : |pcrw.count - rhs| < 2 ^ 63) :
    percpu_counter_read fbc = some pcrw.count ∧
    (|pcrw.count - rhs| > batch * (online_cpus n m).length →
      __percpu_counter_compare n m fbc rhs batch 0 = some (sign (pcrw.count - rhs), fbc) ∧
      sign (pcrw.count - rhs) ≠ 0) ∧
    (¬ |pcrw.count - rhs| > batch * (online_cpus n m).length →
      ∀ fuel, ∃ s, __percpu_counter_sum n m fbc (fuel + 1) = some (s, fbc) ∧
        __percpu_counter_compare n m fbc rhs batch (fuel + 1) = some (sign (s - rhs), fbc)) := by
  have hT := threshold_exact batch (online_cpus n m).length hb hbs hprod
  have hA := abs_exact (pcrw.count - rhs) hd
  refine ⟨by simp [percpu_counter_read, h1], fun hfast => ?_, fun hslow fuel => ?_⟩
  · have hprod0 : 0 ≤ batch * ((online_cpus n m).length : Int) :=
      mul_nonneg hb (Int.ofNat_nonneg _)
    have hne : pcrw.count - rhs ≠ 0 := by
      intro h0
      rw [h0, abs_zero] at hfast
      omega
    constructor
    · simp only [__percpu_counter_compare, percpu_counter_read, h1, num_online_cpus, hT, hA,
        gt_iff_lt, hfast, if_true]
      unfold sign
      split_ifs <;> first | rfl | omega
    · unfold sign
      split_ifs <;> omega
  · have hsum := sum_spec_same n m fbc fuel pcrw cs h1 h2 hsc
    refine ⟨_, hsum, ?_⟩
    simp only [__percpu_counter_compare, percpu_counter_read, h1, num_online_cpus, hT, hA,
      gt_iff_lt, percpu_counter_sum, hsum]
    rw [if_neg (by simpa using hslow), ← exact_path_sign]
    split_ifs <;> rfl

/-- Witness of C15 (amended): scenario 4 of the specification, four cpus with
true value `10`, compared with `1000000` at batch `32`. -/
theorem compare_paths_witness :
    (⟨some [10, 0, 0, 0], some ⟨0, 0, 0⟩, 0⟩ : percpu_counter).pcrw = some ⟨0, 0, 0⟩ ∧
    (⟨some [10, 0, 0, 0], some ⟨0, 0, 0⟩, 0⟩ : percpu_counter).counters =
      some [10, 0, 0, 0] ∧
    is_s32 (⟨some [10, 0, 0, 0], some ⟨0, 0, 0⟩, 0⟩ : percpu_counter).sum_cnt ∧
    (0 : Int) ≤ 32 ∧ is_s32 32 ∧
    (32 : Int) * (online_cpus 4 (fun _ => true)).length < 2 ^ 32 ∧
    |(⟨0, 0, 0⟩ : percpu_counter_rw).count - 1000000| < 2 ^ 63 ∧
    |(⟨0, 0, 0⟩ : percpu_counter_rw).count - 1000000| >
      32 * ((online_cpus 4 (fun _ => true)).length : Int) ∧
    __percpu_counter_compare 4 (fun _ => true) ⟨some [10, 0, 0, 0], some ⟨0, 0, 0⟩, 0⟩
      1000000 32 0 =
        some (sign ((⟨0, 0, 0⟩ : percpu_counter_rw).count - 1000000),
          ⟨some [10, 0, 0, 0], some ⟨0, 0, 0⟩, 0⟩) ∧
    sign ((⟨0, 0, 0⟩ : percpu_counter_rw).count - 1000000) = -1 :=
  ⟨rfl, rfl, by decide, by decide, by decide, by decide, by decide, by decide,
    ((compare_paths 4 (fun _ => true) ⟨some [10, 0, 0, 0], some ⟨0, 0, 0⟩, 0⟩ 1000000 32
      ⟨0, 0, 0⟩ [10, 0, 0, 0] rfl rfl (by decide) (by decide) (by decide) (by decide)
      (by decide)).2.1 (by decide)).1,
    by decide⟩

/-! ## Claim C19 -/

/-- C19: on every initialised counter `__percpu_counter_sum`, run with nothing
interleaved, completes in a single pass of its retry loop, returns `count +
slowcount + ` the slots of the online cpus in 64-bit signed arithmetic (the
exact integer when it fits an `s64`), and leaves the counter as it was:
`sum_cnt` is back at its value, and `count`, `slowcount`, `sequence` and
every slot are untouched. -/
theorem sum_frame (n : Nat) (m : Nat → Bool) (fbc : percpu_counter)
    (pcrw : percpu_counter_rw) (cs : List Int)
    (h1 : fbc.pcrw = some pcrw) (h2 : fbc.counters = some cs) (hsc : is_s32 fbc.sum_cnt) :
    __percpu_counter_sum n m fbc 1 =
      some (wrap_s64 (pcrw.count + pcrw.slowcount + slot_sum cs (online_cpus n m)), fbc) ∧
    sum_pass n m (sum_begin fbc) 1 = some (sum_walk pcrw cs (online_cpus n m)) ∧
    sum_end (sum_begin fbc) = fbc ∧
    (is_s64 (pcrw.count + pcrw.slowcount + slot_sum cs (online_cpus n m)) →
      __percpu_counter_sum n m fbc 1 =
        some (pcrw.count + pcrw.slowcount + slot_sum cs (online_cpus n m), fbc)) := by
  have hs := sum_spec_same n m fbc 0 pcrw cs h1 h2 hsc
  have hl : logical_value n m fbc =
      pcrw.count + pcrw.slowcount + slot_sum cs (online_cpus n m) := by
    simp only [logical_value, h1, h2]
  rw [hl] at hs
  refine ⟨hs, ?_, ?_, fun hfit => ?_⟩
  · simp only [sum_pass, sum_begin, h1, h2]
    exact sum_retry_succ pcrw cs _ 0
  · simp only [sum_end, sum_begin, wrap_s32_inc_dec hsc]
  · rw [hs, wrap_s64_of_is_s64 hfit]

/-- Witness of C19: a counter on four cpus with pending slots, a nonzero
`slowcount` and another sum in flight. -/
theorem sum_frame_witness :
    (⟨some [3, -7, 0, 31], some ⟨100, 9, 5⟩, 1⟩ : percpu_counter).pcrw = some ⟨100, 9, 5⟩ ∧
    (⟨some [3, -7, 0, 31], some ⟨100, 9, 5⟩, 1⟩ : percpu_counter).counters =
      some [3, -7, 0, 31] ∧
    is_s32 (⟨some [3, -7, 0, 31], some ⟨100, 9, 5⟩, 1⟩ : percpu_counter).sum_cnt ∧
    __percpu_counter_sum 4 (fun _ => true) ⟨some [3, -7, 0, 31], some ⟨100, 9, 5⟩, 1⟩ 1 =
      some (wrap_s64 ((⟨100, 9, 5⟩ : percpu_counter_rw).count +
          (⟨100, 9, 5⟩ : percpu_counter_rw).slowcount +
          slot_sum [3, -7, 0, 31] (online_cpus 4 (fun _ => true))),
        ⟨some [3, -7, 0, 31], some ⟨100, 9, 5⟩, 1⟩) ∧
    wrap_s64 ((⟨100, 9, 5⟩ : percpu_counter_rw).count +
      (⟨100, 9, 5⟩ : percpu_counter_rw).slowcount +
      slot_sum [3, -7, 0, 31] (online_cpus 4 (fun _ => true))) = 136 :=
  ⟨rfl, rfl, by decide,
    (sum_frame 4 (fun _ => true) ⟨some [3, -7, 0, 31], some ⟨100, 9, 5⟩, 1⟩ ⟨100, 9, 5⟩
      [3, -7, 0, 31] rfl rfl (by decide)).1,
    by decide⟩

/-! ## Claim C20 -/

/-- C20: with no sum in flight, for every `s64` amount, every positive `s32`
batch and every slot value below the batch in absolute value: when
`__percpu_counter_add` takes the branch without flush, the slot afterwards
holds the exact integer `accumulators[u] + delta`, which fits an `s32`; when
it takes the flush branch, the slot afterwards holds `0`.  The flush branch
is taken exactly when `|accumulators[u] + delta| ≥ batch`. -/
theorem local_store_exact (fbc : percpu_counter) (cpu : Nat) (amount batch : Int)
    (pcrw : percpu_counter_rw) (cs : List Int)
    (h1 : fbc.pcrw = some pcrw) (h2 : fbc.counters = some cs) (h0 : fbc.sum_cnt = 0)
    (hcpu : cpu < cs.length) (ha : is_s64 amount) (hpos : 0 < batch) (hb : is_s32 batch)
    (hp : |cs.getD cpu 0| < batch) :
    ∃ fbc1 cs1, __percpu_counter_add fbc cpu amount batch = some fbc1 ∧
      fbc1.counters = some cs1 ∧
      (takes_flush fbc cpu amount batch = true ↔ |cs.getD cpu 0 + amount| ≥ batch) ∧
      (takes_flush fbc cpu amount batch = true → cs1.getD cpu 0 = 0) ∧
      (takes_flush fbc cpu amount batch = false →
        cs1.getD cpu 0 = cs.getD cpu 0 + amount ∧ is_s32 (cs.getD cpu 0 + amount)) := by
  have hp32 : is_s32 (cs.getD cpu 0) := by
    rw [abs_lt] at hp
    unfold is_s32 INT_MIN INT_MAX at hb ⊢
    omega
  have hex := abs_wrap_ge_iff (cs.getD cpu 0) amount batch hp32 ha hb
  have hiff := flush_cond_iff_abs (wrap_s64 (cs.getD cpu 0 + amount)) batch hb
  have htf : takes_flush fbc cpu amount batch = true ↔ |cs.getD cpu 0 + amount| ≥ batch := by
    simp only [takes_flush, h2, add_route, h0, flush_test]
    rw [← hex, ← hiff]
    simp
  rcases add_local_spec fbc cpu amount batch pcrw cs h1 h2 h0 hb with ⟨he, hc⟩ | ⟨he, _, habs⟩
  · have hge : |cs.getD cpu 0 + amount| ≥ batch := hex.1 (hiff.1 hc)
    refine ⟨_, _, he, rfl, htf, fun _ => getD_set_zero cs cpu, fun hf => ?_⟩
    rw [htf.2 hge] at hf
    exact absurd hf (by decide)
  · have hlt : ¬ |cs.getD cpu 0 + amount| ≥ batch := by
      intro hge
      have := hex.2 hge
      omega
    have hexact : wrap_s64 (cs.getD cpu 0 + amount) = cs.getD cpu 0 + amount := by
      rw [abs_le] at habs
      unfold is_s32 INT_MIN INT_MAX at hp32 hb
      unfold is_s64 S64_MIN S64_MAX at ha
      unfold wrap_s64 at habs ⊢
      omega
    refine ⟨_, _, he, rfl, htf, fun hf => absurd (htf.1 hf) hlt, fun _ => ⟨?_, ?_⟩⟩
    · rw [getD_set_slot, if_pos ⟨rfl, hcpu⟩, hexact]
    · rw [← hexact]
      rw [abs_le] at habs
      unfold is_s32 INT_MIN INT_MAX at hb ⊢
      omega

/-- Witness of C20: scenario 1 of the specification, an update by `10` with
batch `32` on an empty slot. -/
theorem local_store_exact_witness :
    (⟨some [0, 0], some ⟨0, 0, 0⟩, 0⟩ : percpu_counter).pcrw = some ⟨0, 0, 0⟩ ∧
    (⟨some [0, 0], some ⟨0, 0, 0⟩, 0⟩ : percpu_counter).counters = some [0, 0] ∧
    (⟨some [0, 0], some ⟨0, 0, 0⟩, 0⟩ : percpu_counter).sum_cnt = 0 ∧
    0 < ([0, 0] : List Int).length ∧ is_s64 10 ∧ (0 : Int) < 32 ∧ is_s32 32 ∧
    |([0, 0] : List Int).getD 0 0| < 32 ∧
    ∃ fbc1 cs1, __percpu_counter_add ⟨some [0, 0], some ⟨0, 0, 0⟩, 0⟩ 0 10 32 = some fbc1 ∧
      fbc1.counters = some cs1 ∧
      (takes_flush ⟨some [0, 0], some ⟨0, 0, 0⟩, 0⟩ 0 10 32 = true ↔
        |([0, 0] : List Int).getD 0 0 + 10| ≥ 32) ∧
      (takes_flush ⟨some [0, 0], some ⟨0, 0, 0⟩, 0⟩ 0 10 32 = true → cs1.getD 0 0 = 0) ∧
      (takes_flush ⟨some [0, 0], some ⟨0, 0, 0⟩, 0⟩ 0 10 32 = false →
        cs1.getD 0 0 = ([0, 0] : List Int).getD 0 0 + 10 ∧
        is_s32 (([0, 0] : List Int).getD 0 0 + 10)) :=
  ⟨rfl, rfl, rfl, by decide, by decide, by decide, by decide, by decide,
    local_store_exact ⟨some [0, 0], some ⟨0, 0, 0⟩, 0⟩ 0 10 32 ⟨0, 0, 0⟩ [0, 0] rfl rfl rfl
      (by decide) (by decide) (by decide) (by decide) (by decide)⟩

/-! ## The effect of one step -/

theorem add_cases (fbc : percpu_counter) (cpu : Nat) (amount batch : Int)
    (p : percpu_counter_rw) (cs : List Int)
    (h1 : fbc.pcrw = some p) (h2 : fbc.counters = some cs) (hb : is_s32 batch) :
    ∃ p1 cs1, __percpu_counter_add fbc cpu amount batch = some ⟨some cs1, some p1, fbc.sum_cnt⟩ ∧
      cs1.length = cs.length ∧
      (∀ i, i ≠ cpu → cs1.getD i 0 = cs.getD i 0) ∧
      (∀ x ∈ cs1, x ∈ cs ∨ x = 0 ∨ (0 < batch ∧ |x| ≤ batch - 1)) ∧
      p1.sequence =
        (if takes_flush fbc cpu amount batch = true then wrap_u32 (p.sequence + 1)
          else p.sequence) ∧
      (fbc.sum_cnt ≠ 0 → cs1 = cs) := by
  by_cases h0 : fbc.sum_cnt = 0
  · have hr : add_route fbc = false := by simp [add_route, h0]
    rcases add_local_spec fbc cpu amount batch p cs h1 h2 h0 hb with ⟨he, hc⟩ | ⟨he, hpos, habs⟩
    · have htf : takes_flush fbc cpu amount batch = true := by
        simp only [takes_flush, h2, hr, flush_test]
        simpa using hc
      refine ⟨_, _, he, by simp, fun i hi => ?_, fun x hx => ?_, by simp [htf],
        fun hn => absurd h0 hn⟩
      · rw [getD_set_slot]; simp [hi]
      · rcases mem_set_slot hx with hx | hx
        · exact Or.inl hx
        · exact Or.inr (Or.inl hx)
    · have hnc : ¬ (wrap_s64 (cs.getD cpu 0 + amount) ≥ batch ∨
          wrap_s64 (cs.getD cpu 0 + amount) ≤ wrap_s32 (-batch)) := by
        rw [flush_cond_iff_abs _ _ hb]
        intro hge; omega
      have htf : takes_flush fbc cpu amount batch = false := by
        simp only [takes_flush, h2, hr, flush_test]
        simpa using hnc
      rw [h1] at he
      refine ⟨_, _, he, by simp, fun i hi => ?_, fun x hx => ?_, by simp [htf],
        fun hn => absurd h0 hn⟩
      · rw [getD_set_slot]; simp [hi]
      · rcases mem_set_slot hx with hx | hx
        · exact Or.inl hx
        · exact Or.inr (Or.inr ⟨hpos, hx ▸ habs⟩)
  · have hr : add_route fbc = true := by simp [add_route, h0]
    have htf : takes_flush fbc cpu amount batch = false := by
      simp [takes_flush, h2, hr]
    have he := add_slow_spec fbc cpu amount batch p h1 h0
    rw [h2] at he
    exact ⟨_, _, he, rfl, fun _ _ => rfl, fun x hx => Or.inl hx, by simp [htf], fun _ => rfl⟩

theorem set_result (fbc : percpu_counter) (v : Int) (p : percpu_counter_rw) (cs : List Int)
    (h1 : fbc.pcrw = some p) (h2 : fbc.counters = some cs) :
    percpu_counter_set fbc v =
      some ⟨some (cs.map (fun _ => 0)), some { p with count := v, slowcount := 0 },
        fbc.sum_cnt⟩ := by
  simp only [percpu_counter_set, h1, h2]

theorem store_mem_same (K : kernel) (a : Nat) (c : percpu_counter) : (K.store a c).mem a = c := by
  simp [kernel.store]

theorem store_mem_other (K : kernel) (a b : Nat) (c : percpu_counter) (h : b ≠ a) :
    (K.store a c).mem b = K.mem b := by
  simp [kernel.store, Function.update_noteq h]

theorem registry_ok_store (K : kernel) (a : Nat) (c : percpu_counter)
    (hok : registry_ok K) (hc : counter_live c) : registry_ok (K.store a c) := by
  intro b hb
  by_cases hba : b = a
  · subst hba; rw [store_mem_same]; exact hc
  · rw [store_mem_other K a b c hba]; exact hok b hb

theorem callback_dead_effect (K : kernel) (u : Nat) (hok : registry_ok K) :
    ∃ K1, percpu_counter_hotcpu_callback (cpu_removed K u) CPU_DEAD u = some K1 ∧
      K1.nr_cpu_ids = K.nr_cpu_ids ∧ K1.percpu_counters = K.percpu_counters ∧
      K1.cpu_online_mask = (fun i => if i = u then false else K.cpu_online_mask i) ∧
      ∀ b, K1.mem b =
        if b ∈ K.percpu_counters then drained (K.mem b) (u % 2 ^ 32) else K.mem b := by
  obtain ⟨mem1, hrun, hmem1⟩ := drain_loop_spec (u % 2 ^ 32) K.percpu_counters K.mem hok
  refine ⟨_, callback_dead (cpu_removed K u) CPU_DEAD u mem1 (Or.inl rfl) hrun, ?_, ?_, ?_, hmem1⟩
  · simp only [compute_batch_value_nr, cpu_removed]
  · simp only [compute_batch_value_registry, cpu_removed]
  · simp only [compute_batch_value_mask, cpu_removed]

theorem callback_online_effect (K : kernel) (u : Nat) :
    ∃ K1, percpu_counter_hotcpu_callback (cpu_added K u) CPU_ONLINE u = some K1 ∧
      K1.nr_cpu_ids = K.nr_cpu_ids ∧ K1.percpu_counters = K.percpu_counters ∧
      K1.cpu_online_mask = (fun i => if i = u then true else K.cpu_online_mask i) ∧
      K1.mem = K.mem := by
  have hna : CPU_ONLINE ≠ CPU_DEAD ∧ CPU_ONLINE ≠ CPU_DEAD_FROZEN := by decide
  refine ⟨compute_batch_value (cpu_added K u), ?_, ?_, ?_, ?_, ?_⟩
  · unfold percpu_counter_hotcpu_callback
    simp only [if_pos hna]
  · simp only [compute_batch_value_nr, cpu_added]
  · simp only [compute_batch_value_registry, cpu_added]
  · simp only [compute_batch_value_mask, cpu_added]
  · simp only [compute_batch_value_mem, cpu_added]

theorem drained_eq (c : percpu_counter) (u : Nat) (p : percpu_counter_rw) (cs : List Int)
    (h1 : c.pcrw = some p) (h2 : c.counters = some cs) :
    drained c u =
      ⟨some (cs.set u 0), some { p with count := wrap_s64 (p.count + cs.getD u 0) },
        c.sum_cnt⟩ := by
  simp [drained, drain_entry_live c u p cs h1 h2]

theorem step_inv (a : Nat) (s : machine) (o : op) (s1 : machine)
    (hok : machine_ok a s) (h : step a s o = some s1) :
    s1.K.nr_cpu_ids = s.K.nr_cpu_ids ∧ s1.K.percpu_counters = s.K.percpu_counters ∧
    registry_ok s1.K ∧
    match o with
    | .update cpu amount batch =>
      cpu < s.K.nr_cpu_ids ∧ s.K.cpu_online_mask cpu = true ∧ is_s32 batch ∧
      __percpu_counter_add (s.K.mem a) cpu amount batch = some (s1.K.mem a) ∧
      s1.K.cpu_online_mask = s.K.cpu_online_mask ∧ s1.in_flight = s.in_flight ∧
      s1.flushes =
        s.flushes + (if takes_flush (s.K.mem a) cpu amount batch = true then 1 else 0)
    | .set amount =>
      percpu_counter_set (s.K.mem a) amount = some (s1.K.mem a) ∧
      s1.K.cpu_online_mask = s.K.cpu_online_mask ∧ s1.in_flight = s.in_flight ∧
      s1.flushes = s.flushes
    | .sum_begin =>
      s1.K.mem a = sum_begin (s.K.mem a) ∧
      s1.K.cpu_online_mask = s.K.cpu_online_mask ∧ s1.in_flight = s.in_flight + 1 ∧
      s1.flushes = s.flushes
    | .sum_walk =>
      s1.K.mem a = s.K.mem a ∧ 0 < s.in_flight ∧
      s1.K.cpu_online_mask = s.K.cpu_online_mask ∧ s1.in_flight = s.in_flight ∧
      s1.flushes = s.flushes
    | .sum_end =>
      s1.K.mem a = sum_end (s.K.mem a) ∧ 0 < s.in_flight ∧
      s1.K.cpu_online_mask = s.K.cpu_online_mask ∧ s1.in_flight = s.in_flight - 1 ∧
      s1.flushes = s.flushes
    | .cpu_dead u =>
      u < s.K.nr_cpu_ids ∧ s.K.cpu_online_mask u = true ∧
      s1.K.mem a = drained (s.K.mem a) u ∧
      s1.K.cpu_online_mask = (fun i => if i = u then false else s.K.cpu_online_mask i) ∧
      s1.in_flight = s.in_flight ∧ s1.flushes = s.flushes
    | .cpu_online u =>
      u < s.K.nr_cpu_ids ∧ s.K.cpu_online_mask u = false ∧
      s1.K.mem a = s.K.mem a ∧
      s1.K.cpu_online_mask = (fun i => if i = u then true else s.K.cpu_online_mask i) ∧
      s1.in_flight = s.in_flight ∧ s1.flushes = s.flushes := by
  obtain ⟨hreg, hmem, hn, p, cs, h1, h2, hlen⟩ := hok
  have hlive : counter_live (s.K.mem a) := (counter_live_iff _).2 ⟨p, cs, h1, h2⟩
  cases o with
  | update cpu amount batch =>
    simp only [step] at h
    split at h
    · rename_i hg
      obtain ⟨p1, cs1, he, _⟩ := add_cases (s.K.mem a) cpu amount batch p cs h1 h2 hg.2.2
      rw [he] at h
      simp only [Option.some.injEq] at h
      subst h
      refine ⟨rfl, rfl, registry_ok_store _ _ _ hreg (by simp [counter_live]), hg.1, hg.2.1,
        hg.2.2, ?_, rfl, rfl, rfl⟩
      rw [he, store_mem_same]
    · exact absurd h (by simp)
  | set amount =>
    simp only [step, set_result (s.K.mem a) amount p cs h1 h2, Option.some.injEq] at h
    subst h
    refine ⟨rfl, rfl, registry_ok_store _ _ _ hreg (by simp [counter_live]), ?_, rfl, rfl, rfl⟩
    rw [set_result (s.K.mem a) amount p cs h1 h2, store_mem_same]
  | sum_begin =>
    simp only [step, Option.some.injEq] at h
    subst h
    refine ⟨rfl, rfl, registry_ok_store _ _ _ hreg ?_, store_mem_same _ _ _, rfl, rfl, rfl⟩
    simpa [counter_live, sum_begin] using hlive
  | sum_walk =>
    simp only [step] at h
    split at h
    · rename_i hg
      split at h
      · exact absurd h (by simp)
      · simp only [Option.some.injEq] at h
        subst h
        exact ⟨rfl, rfl, hreg, rfl, hg, rfl, rfl, rfl⟩
    · exact absurd h (by simp)
  | sum_end =>
    simp only [step] at h
    split at h
    · rename_i hg
      simp only [Option.some.injEq] at h
      subst h
      refine ⟨rfl, rfl, registry_ok_store _ _ _ hreg ?_, store_mem_same _ _ _, hg, rfl, rfl, rfl⟩
      simpa [counter_live, sum_end] using hlive
    · exact absurd h (by simp)
  | cpu_dead u =>
    simp only [step] at h
    split at h
    · rename_i hg
      obtain ⟨K1, he, hnr, hpc, hmask, hm⟩ := callback_dead_effect s.K u hreg
      rw [he] at h
      simp only [Option.some.injEq] at h
      subst h
      have hmod : u % 2 ^ 32 = u := Nat.mod_eq_of_lt (by omega)
      refine ⟨hnr, hpc, ?_, hg.1, hg.2, ?_, hmask, rfl, rfl⟩
      · intro b hb
        rw [hpc] at hb
        show counter_live (K1.mem b)
        rw [hm b, if_pos hb]
        exact (drained_live _ (hreg b hb)).2.1
      · show K1.mem a = _
        rw [hm a, if_pos hmem, hmod]
    · exact absurd h (by simp)
  | cpu_online u =>
    simp only [step] at h
    split at h
    · rename_i hg
      obtain ⟨K1, he, hnr, hpc, hmask, hm⟩ := callback_online_effect s.K u
      rw [he] at h
      simp only [Option.some.injEq] at h
      subst h
      refine ⟨hnr, hpc, ?_, hg.1, hg.2, ?_, hmask, rfl, rfl⟩
      · intro b hb
        rw [hpc] at hb
        show counter_live (K1.mem b)
        rw [hm]
        exact hreg b hb
      · show K1.mem a = _
        rw [hm]
    · exact absurd h (by simp)

theorem getD_map_zero (cs : List Int) (i : Nat) : (cs.map (fun _ => (0 : Int))).getD i 0 = 0 := by
  rw [List.getD_eq_getElem?_getD]
  cases hq : (cs.map (fun _ => (0 : Int)))[i]? with
  | none => rfl
  | some x =>
    obtain ⟨_, _, e⟩ := List.mem_map.1 (List.getElem?_mem hq)
    simpa using e.symm

theorem step_counter (a : Nat) (s : machine) (o : op) (s1 : machine)
    (hok : machine_ok a s) (h : step a s o = some s1)
    (p : percpu_counter_rw) (cs : List Int)
    (h1 : (s.K.mem a).pcrw = some p) (h2 : (s.K.mem a).counters = some cs) :
    ∃ p1 cs1, (s1.K.mem a).pcrw = some p1 ∧ (s1.K.mem a).counters = some cs1 ∧
      cs1.length = cs.length ∧
      (((s1.K.mem a).sum_cnt = (s.K.mem a).sum_cnt ∧ s1.in_flight = s.in_flight) ∨
        ((s1.K.mem a).sum_cnt = wrap_s32 ((s.K.mem a).sum_cnt + 1) ∧
          s1.in_flight = s.in_flight + 1) ∨
        ((s1.K.mem a).sum_cnt = wrap_s32 ((s.K.mem a).sum_cnt - 1) ∧ 0 < s.in_flight ∧
          s1.in_flight = s.in_flight - 1)) ∧
      (∀ x ∈ cs1, x ∈ cs ∨ x = 0 ∨
        ∃ cpu amount batch, o = .update cpu amount batch ∧ 0 < batch ∧ |x| ≤ batch - 1) ∧
      (o.no_drain = true →
        p1.sequence =
          (if s1.flushes = s.flushes + 1 then wrap_u32 (p.sequence + 1) else p.sequence)) ∧
      (s1.flushes = s.flushes ∨ s1.flushes = s.flushes + 1) ∧
      (p1.sequence = p.sequence ∨ p1.sequence = wrap_u32 (p.sequence + 1)) ∧
      (∀ i, s1.K.cpu_online_mask i = false →
        cs1.getD i 0 = 0 ∨ (s.K.cpu_online_mask i = false ∧ cs1.getD i 0 = cs.getD i 0)) := by
  obtain ⟨_, _, _, hm⟩ := step_inv a s o s1 hok h
  cases o with
  | update cpu amount batch =>
    obtain ⟨_, hon, hb, he, hmask, hfl, hflu⟩ := hm
    obtain ⟨p1, cs1, he1, hlen, hoth, hmemb, hseq, _⟩ :=
      add_cases (s.K.mem a) cpu amount batch p cs h1 h2 hb
    have hc : s1.K.mem a = ⟨some cs1, some p1, (s.K.mem a).sum_cnt⟩ :=
      Option.some.inj (he.symm.trans he1)
    refine ⟨p1, cs1, by rw [hc], by rw [hc], hlen, Or.inl ⟨by rw [hc], hfl⟩, ?_, ?_, ?_, ?_, ?_⟩
    · intro x hx
      rcases hmemb x hx with hx | hx | hx
      · exact Or.inl hx
      · exact Or.inr (Or.inl hx)
      · exact Or.inr (Or.inr ⟨cpu, amount, batch, rfl, hx⟩)
    · intro _
      rw [hseq, hflu]
      by_cases htf : takes_flush (s.K.mem a) cpu amount batch = true <;> simp [htf]
    · rw [hflu]
      by_cases htf : takes_flush (s.K.mem a) cpu amount batch = true <;> simp [htf]
    · rw [hseq]
      by_cases htf : takes_flush (s.K.mem a) cpu amount batch = true <;> simp [htf]
    · intro i hi
      rw [hmask] at hi
      have hne : i ≠ cpu := by
        intro e; subst e; rw [hon] at hi; exact absurd hi (by decide)
      exact Or.inr ⟨hi, hoth i hne⟩
  | set amount =>
    obtain ⟨he, hmask, hfl, hflu⟩ := hm
    have hc : s1.K.mem a = _ :=
      Option.some.inj (he.symm.trans (set_result (s.K.mem a) amount p cs h1 h2))
    refine ⟨{ p with count := amount, slowcount := 0 }, cs.map (fun _ => 0), by rw [hc],
      by rw [hc], by simp, Or.inl ⟨by rw [hc], hfl⟩, ?_, ?_,
      Or.inl hflu, Or.inl rfl, fun i _ => Or.inl (getD_map_zero cs i)⟩
    · intro x hx
      obtain ⟨_, _, e⟩ := List.mem_map.1 hx
      exact Or.inr (Or.inl e.symm)
    · intro _; simp [hflu]
  | sum_begin =>
    obtain ⟨hc, hmask, hfl, hflu⟩ := hm
    refine ⟨p, cs, by rw [hc]; exact h1, by rw [hc]; exact h2, rfl,
      Or.inr (Or.inl ⟨by rw [hc]; rfl, hfl⟩), fun x hx => Or.inl hx, ?_, Or.inl hflu,
      Or.inl rfl, fun i hi => Or.inr ⟨by rw [← hmask]; exact hi, rfl⟩⟩
    intro _; simp [hflu]
  | sum_walk =>
    obtain ⟨hc, _, hmask, hfl, hflu⟩ := hm
    refine ⟨p, cs, by rw [hc]; exact h1, by rw [hc]; exact h2, rfl,
      Or.inl ⟨by rw [hc], hfl⟩, fun x hx => Or.inl hx, ?_, Or.inl hflu,
      Or.inl rfl, fun i hi => Or.inr ⟨by rw [← hmask]; exact hi, rfl⟩⟩
    intro _; simp [hflu]
  | sum_end =>
    obtain ⟨hc, hpos, hmask, hfl, hflu⟩ := hm
    refine ⟨p, cs, by rw [hc]; exact h1, by rw [hc]; exact h2, rfl,
      Or.inr (Or.inr ⟨by rw [hc]; rfl, hpos, hfl⟩), fun x hx => Or.inl hx, ?_, Or.inl hflu,
      Or.inl rfl, fun i hi => Or.inr ⟨by rw [← hmask]; exact hi, rfl⟩⟩
    intro _; simp [hflu]
  | cpu_dead u =>
    obtain ⟨_, _, hc, hmask, hfl, hflu⟩ := hm
    rw [drained_eq (s.K.mem a) u p cs h1 h2] at hc
    refine ⟨{ p with count := wrap_s64 (p.count + cs.getD u 0) }, cs.set u 0, by rw [hc],
      by rw [hc], by simp, Or.inl ⟨by rw [hc], hfl⟩, ?_, ?_,
      Or.inl hflu, Or.inl rfl, ?_⟩
    · intro x hx
      rcases mem_set_slot hx with hx | hx
      · exact Or.inl hx
      · exact Or.inr (Or.inl hx)
    · intro hnd; exact absurd hnd (by simp [op.no_drain])
    · intro i hi
      rw [hmask] at hi
      by_cases hiu : i = u
      · subst hiu; exact Or.inl (getD_set_zero cs i)
      · simp only [hiu, if_false] at hi
        refine Or.inr ⟨hi, ?_⟩
        rw [getD_set_slot]; simp [hiu]
  | cpu_online u =>
    obtain ⟨_, _, hc, hmask, hfl, hflu⟩ := hm
    refine ⟨p, cs, by rw [hc]; exact h1, by rw [hc]; exact h2, rfl,
      Or.inl ⟨by rw [hc], hfl⟩, fun x hx => Or.inl hx, ?_, Or.inl hflu, Or.inl rfl, ?_⟩
    · intro _; simp [hflu]
    · intro i hi
      rw [hmask] at hi
      by_cases hiu : i = u
      · subst hiu; simp at hi
      · simp only [hiu, if_false] at hi
        exact Or.inr ⟨hi, rfl⟩

theorem step_ok (a : Nat) (s : machine) (o : op) (s1 : machine)
    (hok : machine_ok a s) (h : step a s o = some s1) : machine_ok a s1 := by
  obtain ⟨hnr, hpc, hreg, _⟩ := step_inv a s o s1 hok h
  obtain ⟨_, hmem, hn, p, cs, h1, h2, hlen⟩ := hok
  obtain ⟨p1, cs1, hp1, hc1, hl1, _⟩ :=
    step_counter a s o s1 ⟨‹registry_ok s.K›, hmem, hn, p, cs, h1, h2, hlen⟩ h p cs h1 h2
  exact ⟨hreg, hpc ▸ hmem, hnr ▸ hn, p1, cs1, hp1, hc1, by rw [hl1, hlen, hnr]⟩

theorem machine_init_ok (K : kernel) (a : Nat) (v : Int) (hok : registry_ok K)
    (hn : K.nr_cpu_ids ≤ 2 ^ 32) : machine_ok a (machine_init K a v) := by
  have hm : (machine_init K a v).K.mem a = _ := init_mem K a v
  refine ⟨?_, ?_, ?_, _, _, by rw [hm], by rw [hm], ?_⟩
  · intro b hb
    simp only [machine_init, init_success] at hb ⊢
    by_cases hba : b = a
    · subst hba; simp [counter_live]
    · rw [Function.update_noteq hba]
      rcases List.mem_cons.1 hb with e | e
      · exact absurd e hba
      · exact hok b e
  · simp [machine_init, init_success]
  · simpa [machine_init, init_success] using hn
  · simp [machine_init, init_success]

/-! ## Invariants of the executions -/

theorem run_ok (a : Nat) (os : List op) :
    ∀ s s1 : machine, machine_ok a s → run a s os = some s1 → machine_ok a s1 := by
  induction os with
  | nil =>
    intro s s1 hok h
    simp only [run, Option.some.injEq] at h
    exact h ▸ hok
  | cons o rest ih =>
    intro s s1 hok h
    simp only [run] at h
    cases hs : step a s o with
    | none => rw [hs] at h; exact absurd h (by simp)
    | some s2 =>
      rw [hs] at h
      exact ih s2 s1 (step_ok a s o s2 hok hs) h

/-- Induction over an execution: a property of the states that holds at the
start and is kept by every step from a well-formed state holds at the end. -/
theorem run_induction (a : Nat) (P : machine → Prop) (good : op → Prop)
    (hstep : ∀ s o s1, machine_ok a s → good o → P s → step a s o = some s1 → P s1)
    (os : List op) :
    ∀ s s1 : machine, machine_ok a s → (∀ o ∈ os, good o) → P s → run a s os = some s1 →
      P s1 := by
  induction os with
  | nil =>
    intro s s1 _ _ hP h
    simp only [run, Option.some.injEq] at h
    exact h ▸ hP
  | cons o rest ih =>
    intro s s1 hok hg hP h
    simp only [run] at h
    cases hs : step a s o with
    | none => rw [hs] at h; exact absurd h (by simp)
    | some s2 =>
      rw [hs] at h
      exact ih s2 s1 (step_ok a s o s2 hok hs) (fun o1 ho1 => hg o1 (by simp [ho1]))
        (hstep s o s2 hok (hg o (by simp)) hP hs) h

theorem wrap_s32_inc (f : Int) : wrap_s32 (wrap_s32 f + 1) = wrap_s32 (f + 1) := by
  unfold wrap_s32; omega

theorem wrap_s32_dec (f : Int) : wrap_s32 (wrap_s32 f - 1) = wrap_s32 (f - 1) := by
  unfold wrap_s32; omega

theorem in_flight_step (a : Nat) (s : machine) (o : op) (s1 : machine)
    (hok : machine_ok a s) (hP : (s.K.mem a).sum_cnt = wrap_s32 (s.in_flight : Int))
    (h : step a s o = some s1) :
    (s1.K.mem a).sum_cnt = wrap_s32 (s1.in_flight : Int) := by
  obtain ⟨_, _, _, p, cs, h1, h2, _⟩ := id hok
  obtain ⟨_, _, _, _, _, hcnt, _⟩ := step_counter a s o s1 hok h p cs h1 h2
  rcases hcnt with ⟨hc, hf⟩ | ⟨hc, hf⟩ | ⟨hc, hpos, hf⟩
  · rw [hP] at hc
    rw [hf]
    exact hc
  · rw [hP, wrap_s32_inc] at hc
    have hcast : ((s1.in_flight : Nat) : Int) = (s.in_flight : Int) + 1 := by
      rw [hf]; exact Nat.cast_succ _
    rw [hcast]
    exact hc
  · rw [hP, wrap_s32_dec] at hc
    have hcast : ((s1.in_flight : Nat) : Int) = (s.in_flight : Int) - 1 := by
      rw [hf]; omega
    rw [hcast]
    exact hc

/-! ## Claim C17 -/

/-- C17: in every state reached from a successful init by updates, sets, the
steps of sums (increment of `sum_cnt`, walk, decrement), removals and
additions of cpus, while the number of sums that have begun and not ended
fits an `int`, `sum_cnt` equals that number; hence `sum_cnt > 0` exactly when
a sum is in progress, `sum_cnt` is never negative, and an update step taken
while `sum_cnt > 0` leaves every slot of the per-cpu area as it was. -/
theorem in_flight_invariant (K0 : kernel) (a : Nat) (v0 : Int) (os : List op) (s : machine)
    (hreg : registry_ok K0) (hn : K0.nr_cpu_ids ≤ 2 ^ 32)
    (hrun : run a (machine_init K0 a v0) os = some s)
    (hb : (s.in_flight : Int) ≤ INT_MAX) :
    (s.K.mem a).sum_cnt = s.in_flight ∧
    (0 < (s.K.mem a).sum_cnt ↔ 0 < s.in_flight) ∧
    0 ≤ (s.K.mem a).sum_cnt ∧
    ∀ cpu amount batch s1, 0 < (s.K.mem a).sum_cnt →
      step a s (.update cpu amount batch) = some s1 →
      (s1.K.mem a).counters = (s.K.mem a).counters := by
  have hok0 := machine_init_ok K0 a v0 hreg hn
  have hok := run_ok a os _ s hok0 hrun
  have hP0 : ((machine_init K0 a v0).K.mem a).sum_cnt =
      wrap_s32 ((machine_init K0 a v0).in_flight : Int) := by
    have hm : (machine_init K0 a v0).K.mem a = _ := init_mem K0 a v0
    have hz : wrap_s32 (((0 : Nat) : Int)) = 0 := by
      rw [Nat.cast_zero]; decide
    rw [hm]
    exact hz.symm
  have hP := run_induction a (fun s => (s.K.mem a).sum_cnt = wrap_s32 (s.in_flight : Int))
    (fun _ => True) (fun s o s1 hk _ hp hs => in_flight_step a s o s1 hk hp hs) os _ s hok0
    (fun _ _ => trivial) hP0 hrun
  have hw : wrap_s32 (s.in_flight : Int) = s.in_flight := by
    unfold INT_MAX at hb
    unfold wrap_s32; omega
  have heq : (s.K.mem a).sum_cnt = s.in_flight := hP.trans hw
  refine ⟨heq, by rw [heq]; exact Int.natCast_pos, by rw [heq]; exact Int.ofNat_nonneg _, ?_⟩
  intro cpu amount batch s1 hpos hs
  obtain ⟨_, _, _, p, cs, h1, h2, _⟩ := id hok
  obtain ⟨_, _, _, _, _, _, he, _⟩ := step_inv a s (.update cpu amount batch) s1 hok hs
  rw [add_slow_spec _ cpu amount batch p h1 (ne_of_gt hpos)] at he
  rw [← Option.some.inj he]

/-- Witness of C17: on two cpus, a sum that has begun and walked, with an
update by `5` on cpu `0` in between. -/
theorem in_flight_invariant_witness :
    registry_ok (example_kernel 2) ∧ (example_kernel 2).nr_cpu_ids ≤ 2 ^ 32 ∧
    run 7 (machine_init (example_kernel 2) 7 0) [.sum_begin, .update 0 5 32, .sum_walk] =
      some (run_result 7 (machine_init (example_kernel 2) 7 0)
        [.sum_begin, .update 0 5 32, .sum_walk]) ∧
    ((run_result 7 (machine_init (example_kernel 2) 7 0)
      [.sum_begin, .update 0 5 32, .sum_walk]).in_flight : Int) ≤ INT_MAX ∧
    ((run_result 7 (machine_init (example_kernel 2) 7 0)
      [.sum_begin, .update 0 5 32, .sum_walk]).K.mem 7).sum_cnt = 1 ∧
    ((run_result 7 (machine_init (example_kernel 2) 7 0)
      [.sum_begin, .update 0 5 32, .sum_walk]).K.mem 7).counters = some [0, 0] ∧
    (((run_result 7 (machine_init (example_kernel 2) 7 0)
        [.sum_begin, .update 0 5 32, .sum_walk]).K.mem 7).sum_cnt =
      (run_result 7 (machine_init (example_kernel 2) 7 0)
        [.sum_begin, .update 0 5 32, .sum_walk]).in_flight) :=
  ⟨by unfold registry_ok; decide, by decide, rfl, by decide, by decide, by decide,
    (in_flight_invariant (example_kernel 2) 7 0 [.sum_begin, .update 0 5 32, .sum_walk]
      (run_result 7 (machine_init (example_kernel 2) 7 0)
        [.sum_begin, .update 0 5 32, .sum_walk])
      (by unfold registry_ok; decide) (by decide) rfl (by decide)).1⟩

/-! ## Claim C18 -/

theorem offline_zero_step (a : Nat) (s : machine) (o : op) (s1 : machine)
    (hok : machine_ok a s) (hP : offline_zero a s) (h : step a s o = some s1) :
    offline_zero a s1 := by
  obtain ⟨_, _, _, p, cs, h1, h2, _⟩ := id hok
  obtain ⟨p1, cs1, _, hc1, _, _, _, _, _, _, hoff⟩ := step_counter a s o s1 hok h p cs h1 h2
  intro cs2 hcs2 i hi
  have e : cs2 = cs1 := Option.some.inj (hcs2.symm.trans hc1)
  subst e
  rcases hoff i hi with hz | ⟨hoffi, hsame⟩
  · exact hz
  · rw [hsame]; exact hP cs h2 i hoffi

theorem offline_zero_init (K0 : kernel) (a : Nat) (v0 : Int) :
    offline_zero a (machine_init K0 a v0) := by
  intro cs hcs i _
  have hm : (machine_init K0 a v0).K.mem a = _ := init_mem K0 a v0
  rw [hm] at hcs
  simp only [Option.some.injEq] at hcs
  subst hcs
  rw [List.getD_eq_getElem?_getD]
  cases hq : (List.replicate K0.nr_cpu_ids (0 : Int))[i]? with
  | none => rfl
  | some x => simpa using (List.eq_of_mem_replicate (List.getElem?_mem hq))

/-- C18: in every state reached from a successful init by updates on online
cpus, sets, the steps of sums, additions of cpus and removals of cpus with
their drain, the slot of every cpu that is not online is zero; so the slots
of the online cpus add up to the slots of all possible cpus, and a cpu that
is added starts with a zero slot. -/
theorem offline_slots_zero (K0 : kernel) (a : Nat) (v0 : Int) (os : List op) (s : machine)
    (hreg : registry_ok K0) (hn : K0.nr_cpu_ids ≤ 2 ^ 32)
    (hrun : run a (machine_init K0 a v0) os = some s) :
    ∃ cs, (s.K.mem a).counters = some cs ∧ cs.length = s.K.nr_cpu_ids ∧
      (∀ i, s.K.cpu_online_mask i = false → cs.getD i 0 = 0) ∧
      slot_sum cs (online_cpus s.K.nr_cpu_ids s.K.cpu_online_mask) =
        slot_sum cs (List.range s.K.nr_cpu_ids) ∧
      ∀ u s1, step a s (.cpu_online u) = some s1 →
        s1.K.cpu_online_mask u = true ∧
        ∃ cs1, (s1.K.mem a).counters = some cs1 ∧ cs1.getD u 0 = 0 := by
  have hok0 := machine_init_ok K0 a v0 hreg hn
  have hok := run_ok a os _ s hok0 hrun
  have hP := run_induction a (offline_zero a) (fun _ => True)
    (fun s o s1 hk _ hp hs => offline_zero_step a s o s1 hk hp hs) os _ s hok0
    (fun _ _ => trivial) (offline_zero_init K0 a v0) hrun
  obtain ⟨_, _, _, p, cs, h1, h2, hlen⟩ := id hok
  refine ⟨cs, h2, hlen, hP cs h2, ?_, fun u s1 hs => ?_⟩
  · exact slot_sum_filter cs _ _ (fun i _ hi => hP cs h2 i hi)
  · obtain ⟨_, _, _, _, hoff, hc, hmask, _⟩ := step_inv a s (.cpu_online u) s1 hok hs
    refine ⟨by rw [hmask]; simp, cs, by rw [hc]; exact h2, hP cs h2 u hoff⟩

/-- Witness of C18: on two cpus, an update by `5` on cpu `1`, the removal of
cpu `1` and its addition again. -/
theorem offline_slots_zero_witness :
    registry_ok (example_kernel 2) ∧ (example_kernel 2).nr_cpu_ids ≤ 2 ^ 32 ∧
    run 7 (machine_init (example_kernel 2) 7 0) [.update 1 5 32, .cpu_dead 1] =
      some (run_result 7 (machine_init (example_kernel 2) 7 0) [.update 1 5 32, .cpu_dead 1]) ∧
    ((run_result 7 (machine_init (example_kernel 2) 7 0)
      [.update 1 5 32, .cpu_dead 1]).K.mem 7).counters = some [0, 0] ∧
    ((run_result 7 (machine_init (example_kernel 2) 7 0)
      [.update 1 5 32, .cpu_dead 1]).K.mem 7).pcrw = some ⟨5, 0, 0⟩ ∧
    ∃ cs, ((run_result 7 (machine_init (example_kernel 2) 7 0)
        [.update 1 5 32, .cpu_dead 1]).K.mem 7).counters = some cs ∧
      cs.length = (run_result 7 (machine_init (example_kernel 2) 7 0)
        [.update 1 5 32, .cpu_dead 1]).K.nr_cpu_ids ∧
      (∀ i, (run_result 7 (machine_init (example_kernel 2) 7 0)
        [.update 1 5 32, .cpu_dead 1]).K.cpu_online_mask i = false → cs.getD i 0 = 0) :=
  ⟨by unfold registry_ok; decide, by decide, rfl, by decide, by decide,
    (offline_slots_zero (example_kernel 2) 7 0 [.update 1 5 32, .cpu_dead 1]
      (run_result 7 (machine_init (example_kernel 2) 7 0) [.update 1 5 32, .cpu_dead 1])
      (by unfold registry_ok; decide) (by decide) rfl).imp
      (fun _ h => ⟨h.1, h.2.1, h.2.2.1⟩)⟩

/-! ## Claim C14 -/

theorem slots_below_step (a : Nat) (B : Int) (hB : 0 < B) (s : machine) (o : op)
    (s1 : machine) (hok : machine_ok a s) (hg : o.batch_is B = true)
    (hP : slots_below a B s) (h : step a s o = some s1) : slots_below a B s1 := by
  obtain ⟨_, _, _, p, cs, h1, h2, _⟩ := id hok
  obtain ⟨p1, cs1, _, hc1, _, _, hmemb, _⟩ := step_counter a s o s1 hok h p cs h1 h2
  intro cs2 hcs2 x hx
  have e : cs2 = cs1 := Option.some.inj (hcs2.symm.trans hc1)
  subst e
  rcases hmemb x hx with hx | hx | ⟨cpu, amount, batch, ho, _, habs⟩
  · exact hP cs h2 x hx
  · rw [hx, abs_zero]; exact hB
  · subst ho
    have hb : batch = B := by simpa [op.batch_is] using hg
    rw [hb] at habs
    omega

theorem slots_below_init (K0 : kernel) (a : Nat) (v0 B : Int) (hB : 0 < B) :
    slots_below a B (machine_init K0 a v0) := by
  intro cs hcs x hx
  have hm : (machine_init K0 a v0).K.mem a = _ := init_mem K0 a v0
  rw [hm] at hcs
  simp only [Option.some.injEq] at hcs
  subst hcs
  rw [List.eq_of_mem_replicate hx, abs_zero]
  exact hB

/-- C14: for every positive batch `B`, in every state reached from a
successful init by updates that all carry the batch `B`, sets, the steps of
sums, and removals (with their drain) and additions of cpus, every slot of
the per-cpu area is below `B` in absolute value. -/
theorem slots_below_batch (K0 : kernel) (a : Nat) (v0 B : Int) (os : List op) (s : machine)
    (hreg : registry_ok K0) (hn : K0.nr_cpu_ids ≤ 2 ^ 32) (hB : 0 < B)
    (hos : ∀ o ∈ os, o.batch_is B = true)
    (hrun : run a (machine_init K0 a v0) os = some s) :
    ∃ cs, (s.K.mem a).counters = some cs ∧ cs.length = s.K.nr_cpu_ids ∧
      ∀ x ∈ cs, |x| < B := by
  have hok0 := machine_init_ok K0 a v0 hreg hn
  have hok := run_ok a os _ s hok0 hrun
  have hP := run_induction a (slots_below a B) (fun o => o.batch_is B = true)
    (fun s o s1 hk hg hp hs => slots_below_step a B hB s o s1 hk hg hp hs) os _ s hok0
    hos (slots_below_init K0 a v0 B hB) hrun
  obtain ⟨_, _, _, p, cs, h1, h2, hlen⟩ := id hok
  exact ⟨cs, h2, hlen, hP cs h2⟩

/-- Witness of C14: batch `32` on two cpus, updates by `31`, `-40` and `20`,
a set, a sum and the removal of a cpu. -/
theorem slots_below_batch_witness :
    registry_ok (example_kernel 2) ∧ (example_kernel 2).nr_cpu_ids ≤ 2 ^ 32 ∧ (0 : Int) < 32 ∧
    (∀ o ∈ ([.update 0 31 32, .update 1 (-40) 32, .set 9, .update 1 20 32, .sum_begin,
      .sum_walk, .sum_end, .cpu_dead 1] : List op), o.batch_is 32 = true) ∧
    run 7 (machine_init (example_kernel 2) 7 0)
        [.update 0 31 32, .update 1 (-40) 32, .set 9, .update 1 20 32, .sum_begin,
          .sum_walk, .sum_end, .cpu_dead 1] =
      some (run_result 7 (machine_init (example_kernel 2) 7 0)
        [.update 0 31 32, .update 1 (-40) 32, .set 9, .update 1 20 32, .sum_begin,
          .sum_walk, .sum_end, .cpu_dead 1]) ∧
    ∃ cs, ((run_result 7 (machine_init (example_kernel 2) 7 0)
        [.update 0 31 32, .update 1 (-40) 32, .set 9, .update 1 20 32, .sum_begin,
          .sum_walk, .sum_end, .cpu_dead 1]).K.mem 7).counters = some cs ∧
      cs.length = (run_result 7 (machine_init (example_kernel 2) 7 0)
        [.update 0 31 32, .update 1 (-40) 32, .set 9, .update 1 20 32, .sum_begin,
          .sum_walk, .sum_end, .cpu_dead 1]).K.nr_cpu_ids ∧
      ∀ x ∈ cs, |x| < 32 :=
  ⟨by unfold registry_ok; decide, by decide, by decide, by decide, rfl,
    slots_below_batch (example_kernel 2) 7 0 32
      [.update 0 31 32, .update 1 (-40) 32, .set 9, .update 1 20 32, .sum_begin,
        .sum_walk, .sum_end, .cpu_dead 1]
      (run_result 7 (machine_init (example_kernel 2) 7 0)
        [.update 0 31 32, .update 1 (-40) 32, .set 9, .update 1 20 32, .sum_begin,
          .sum_walk, .sum_end, .cpu_dead 1])
      (by unfold registry_ok; decide) (by decide) (by decide) (by decide) rfl⟩

/-! ## Claim C16 -/

theorem sequence_in_range_step (a : Nat) (s : machine) (o : op) (s1 : machine)
    (hok : machine_ok a s) (hP : sequence_in_range a s) (h : step a s o = some s1) :
    sequence_in_range a s1 := by
  obtain ⟨_, _, _, p, cs, h1, h2, _⟩ := id hok
  obtain ⟨p1, cs1, hp1, _, _, _, _, _, _, hseq, _⟩ := step_counter a s o s1 hok h p cs h1 h2
  intro p2 hp2
  have e : p2 = p1 := Option.some.inj (hp2.symm.trans hp1)
  subst e
  have hr := hP p h1
  rcases hseq with hs | hs
  · rw [hs]; exact hr
  · rw [hs]
    unfold wrap_u32
    omega

theorem sequence_tracks_step (a : Nat) (s0 s : machine) (o : op) (s1 : machine)
    (hok : machine_ok a s) (hg : o.no_drain = true) (hP : sequence_tracks a s0 s)
    (h : step a s o = some s1) : sequence_tracks a s0 s1 := by
  obtain ⟨_, _, _, p, cs, h1, h2, _⟩ := id hok
  obtain ⟨p1, cs1, hp1, _, _, _, _, hseq, hfl, _, _⟩ := step_counter a s o s1 hok h p cs h1 h2
  have hseq1 := hseq hg
  obtain ⟨hle, htr⟩ := hP
  refine ⟨by omega, fun p0 p2 hp0 hp2 => ?_⟩
  have e : p2 = p1 := Option.some.inj (hp2.symm.trans hp1)
  subst e
  have ht := htr p0 p hp0 h1
  rcases hfl with hf | hf
  · rw [if_neg (by omega)] at hseq1
    rw [hseq1, hf]
    exact ht
  · rw [if_pos hf] at hseq1
    have hcast : ((s1.flushes : Nat) : Int) = (s.flushes : Int) + 1 := by
      rw [hf]; exact Nat.cast_succ _
    rw [hseq1, hcast]
    unfold wrap_u32 at ht ⊢
    omega

theorem flush_step (c sq : Int) :
    __percpu_counter_add ⟨some [0], some ⟨c, 0, sq⟩, 0⟩ 0 32 32 =
      some ⟨some [0], some ⟨wrap_s64 (c + 32), 0, wrap_u32 (sq + 1)⟩, 0⟩ := by
  have hb : is_s32 32 := by decide
  have hw : wrap_s64 (([0] : List Int).getD 0 0 + 32) = 32 := by decide
  rcases add_local_spec ⟨some [0], some ⟨c, 0, sq⟩, 0⟩ 0 32 32 ⟨c, 0, sq⟩ [0] rfl rfl rfl hb
    with ⟨he, _⟩ | ⟨_, _, habs⟩
  · rw [he, hw]
    rfl
  · rw [hw] at habs
    exact absurd habs (by decide)

theorem run_flushes (k : Nat) :
    ∀ c sq : Int, ∃ c1 sq1,
      run_updates ⟨some [0], some ⟨c, 0, sq⟩, 0⟩ (List.replicate k ⟨0, 32, 32⟩) =
        some ⟨some [0], some ⟨c1, 0, sq1⟩, 0⟩ ∧
      wrap_s64 c1 = wrap_s64 (c + 32 * (k : Int)) ∧
      wrap_u32 sq1 = wrap_u32 (sq + (k : Int)) ∧
      (0 < k → is_s64 c1 ∧ 0 ≤ sq1 ∧ sq1 < 2 ^ 32) := by
  induction k with
  | zero =>
    intro c sq
    exact ⟨c, sq, rfl, by simp, by simp, fun h => absurd h (by decide)⟩
  | succ k ih =>
    intro c sq
    obtain ⟨c1, sq1, he, hc, hs, hr⟩ := ih (wrap_s64 (c + 32)) (wrap_u32 (sq + 1))
    refine ⟨c1, sq1, ?_, ?_, ?_, fun _ => ?_⟩
    · simp only [List.replicate_succ, run_updates, flush_step, he]
    · rw [hc, Nat.cast_succ]
      unfold wrap_s64; omega
    · rw [hs, Nat.cast_succ]
      unfold wrap_u32; omega
    · by_cases hk : 0 < k
      · exact hr hk
      · have hk0 : k = 0 := by omega
        subst hk0
        simp only [List.replicate_zero, run_updates, Option.some.injEq,
          percpu_counter.mk.injEq, percpu_counter_rw.mk.injEq] at he
        obtain ⟨_, ⟨hc1, _, hs1⟩, _⟩ := he
        rw [← hc1, ← hs1]
        refine ⟨is_s64_wrap_s64 _, ?_, ?_⟩ <;> (unfold wrap_u32; omega)

/-- Counterexample of C16 as stated.  (1) After `2^32` updates by `32` with
batch `32` on one cpu, each of which folds `32` into `count` and resets the
slot, `count` is `32 * 2^32` and `sequence` is `0` again: two states of one
execution with equal `sequence` and flushes between them.  (2) The drain of a
removed cpu folds the slot `5` of cpu `1` into `count` (`100` to `105`) and
resets it, and `sequence` stays `2`. -/
theorem sequence_counterexample :
    (∃ fbc, run_updates ⟨some [0], some ⟨0, 0, 0⟩, 0⟩
        (List.replicate (2 ^ 32) ⟨0, 32, 32⟩) = some fbc ∧
      fbc.pcrw = some ⟨137438953472, 0, 0⟩) ∧
    (example_registered.mem 7 = ⟨some [3, 5, 0, -2], some ⟨100, 0, 2⟩, 0⟩ ∧
      (percpu_counter_hotcpu_callback (cpu_removed example_registered 1) CPU_DEAD 1).map
        (fun K => K.mem 7) = some ⟨some [3, 0, 0, -2], some ⟨105, 0, 2⟩, 0⟩) := by
  refine ⟨?_, by decide, by decide⟩
  obtain ⟨c1, sq1, he, hc, hs, hr⟩ := run_flushes (2 ^ 32) 0 0
  obtain ⟨hc64, hs0, hs1⟩ := hr (by norm_num)
  have hcv : wrap_s64 ((0 : Int) + 32 * ((2 ^ 32 : Nat) : Int)) = 137438953472 := by
    norm_num [wrap_s64]
  have hsv : wrap_u32 ((0 : Int) + ((2 ^ 32 : Nat) : Int)) = 0 := by
    norm_num [wrap_u32]
  rw [wrap_s64_of_is_s64 hc64, hcv] at hc
  rw [hsv] at hs
  have hsq : sq1 = 0 := by
    unfold wrap_u32 at hs
    omega
  refine ⟨_, he, ?_⟩
  rw [hc, hsq]

/-- C16 (amended): over the steps update, set, the steps of sums and the
addition of a cpu, from any state reached from a successful init:
`sequence` advances by one, modulo `2^32`, at each update that takes the
flush branch and at no other step, so between two states of one execution it
has advanced, modulo `2^32`, by the number of flushes between them; equal
`sequence` with fewer than `2^32` flushes between the states means that no
flush occurred between them. -/
theorem sequence_counts_flushes (K0 : kernel) (a : Nat) (v0 : Int) (os1 os2 : List op)
    (s1 s2 : machine) (hreg : registry_ok K0) (hn : K0.nr_cpu_ids ≤ 2 ^ 32)
    (hrun1 : run a (machine_init K0 a v0) os1 = some s1)
    (hrun2 : run a s1 os2 = some s2) (hnd : ∀ o ∈ os2, o.no_drain = true) :
    s1.flushes ≤ s2.flushes ∧
    sequence_of (s2.K.mem a) =
      (sequence_of (s1.K.mem a) + ((s2.flushes : Int) - (s1.flushes : Int))) % 2 ^ 32 ∧
    (sequence_of (s2.K.mem a) = sequence_of (s1.K.mem a) →
      (s2.flushes : Int) - (s1.flushes : Int) < 2 ^ 32 → s2.flushes = s1.flushes) := by
  have hok0 := machine_init_ok K0 a v0 hreg hn
  have hok1 := run_ok a os1 _ s1 hok0 hrun1
  have hok2 := run_ok a os2 _ s2 hok1 hrun2
  have hR0 : sequence_in_range a (machine_init K0 a v0) := by
    intro p hp
    have hm : (machine_init K0 a v0).K.mem a = _ := init_mem K0 a v0
    rw [hm] at hp
    simp only [Option.some.injEq] at hp
    subst hp
    exact ⟨le_refl _, by norm_num⟩
  have hR1 := run_induction a (sequence_in_range a) (fun _ => True)
    (fun s o s1 hk _ hp hs => sequence_in_range_step a s o s1 hk hp hs) os1 _ s1 hok0
    (fun _ _ => trivial) hR0 hrun1
  have hR2 := run_induction a (sequence_in_range a) (fun _ => True)
    (fun s o s1 hk _ hp hs => sequence_in_range_step a s o s1 hk hp hs) os2 _ s2 hok1
    (fun _ _ => trivial) hR1 hrun2
  have hT0 : sequence_tracks a s1 s1 := by
    refine ⟨le_refl _, fun p0 p hp0 hp => ?_⟩
    have e : p = p0 := Option.some.inj (hp.symm.trans hp0)
    rw [e, sub_self, add_zero]
  have hT := run_induction a (sequence_tracks a s1) (fun o => o.no_drain = true)
    (fun s o s3 hk hg hp hs => sequence_tracks_step a s1 s o s3 hk hg hp hs) os2 _ s2 hok1
    hnd hT0 hrun2
  obtain ⟨_, _, _, p1, _, hp1, _, _⟩ := id hok1
  obtain ⟨_, _, _, p2, _, hp2, _, _⟩ := id hok2
  have hr1 := hR1 p1 hp1
  have hr2 := hR2 p2 hp2
  have ht := hT.2 p1 p2 hp1 hp2
  have hle : (s1.flushes : Int) ≤ (s2.flushes : Int) := Int.ofNat_le.2 hT.1
  have e1 : sequence_of (s1.K.mem a) = p1.sequence := by simp [sequence_of, hp1]
  have e2 : sequence_of (s2.K.mem a) = p2.sequence := by simp [sequence_of, hp2]
  rw [e1, e2]
  unfold wrap_u32 at ht
  refine ⟨hT.1, by omega, fun heq hlt => ?_⟩
  have : (s2.flushes : Int) = (s1.flushes : Int) := by omega
  exact Int.ofNat.inj this

/-- Witness of C16 (amended): on two cpus, an update by `5` that stays local,
then an update by `40` that flushes and the begin of a sum. -/
theorem sequence_counts_flushes_witness :
    registry_ok (example_kernel 2) ∧ (example_kernel 2).nr_cpu_ids ≤ 2 ^ 32 ∧
    run 7 (machine_init (example_kernel 2) 7 0) [.update 0 5 32] =
      some (run_result 7 (machine_init (example_kernel 2) 7 0) [.update 0 5 32]) ∧
    run 7 (run_result 7 (machine_init (example_kernel 2) 7 0) [.update 0 5 32])
        [.update 0 40 32, .sum_begin] =
      some (run_result 7 (run_result 7 (machine_init (example_kernel 2) 7 0) [.update 0 5 32])
        [.update 0 40 32, .sum_begin]) ∧
    (∀ o ∈ ([.update 0 40 32, .sum_begin] : List op), o.no_drain = true) ∧
    (run_result 7 (run_result 7 (machine_init (example_kernel 2) 7 0) [.update 0 5 32])
      [.update 0 40 32, .sum_begin]).flushes = 1 ∧
    sequence_of ((run_result 7 (run_result 7 (machine_init (example_kernel 2) 7 0)
      [.update 0 5 32]) [.update 0 40 32, .sum_begin]).K.mem 7) = 1 ∧
    (run_result 7 (machine_init (example_kernel 2) 7 0) [.update 0 5 32]).flushes ≤
      (run_result 7 (run_result 7 (machine_init (example_kernel 2) 7 0) [.update 0 5 32])
        [.update 0 40 32, .sum_begin]).flushes :=
  ⟨by unfold registry_ok; decide, by decide, rfl, rfl, by decide, by decide, by decide,
    (sequence_counts_flushes (example_kernel 2) 7 0 [.update 0 5 32]
      [.update 0 40 32, .sum_begin]
      (run_result 7 (machine_init (example_kernel 2) 7 0) [.update 0 5 32])
      (run_result 7 (run_result 7 (machine_init (example_kernel 2) 7 0) [.update 0 5 32])
        [.update 0 40 32, .sum_begin])
      (by unfold registry_ok; decide) (by decide) rfl rfl (by decide)).1⟩

end PercpuCounter
